import Mathlib

/-!
Verification of the ejs recursive-descent parser (src/ejs.c).

The C source is shallowly embedded: the scan state (struct ejs) becomes a
Lean structure, the null-terminated source text becomes a `List Char` read
through a total lookup that yields the NUL character past the end, and the
setjmp/longjmp error channel becomes an explicit three-way result type
(`PRes`): normal return, syntax error (longjmp to the catch point in
ejs_exec), or fuel exhaustion.  The grammar functions recurse on a fuel
parameter; one fuel unit is consumed per grammar-function call, and
`ejs_exec` supplies a fuel proved sufficient for its input, so the
fuel-exhaustion outcome is unreachable from the entry point.  To keep the
embedding executable by kernel reduction, the eleven grammar functions are
packaged in a structure (`Parsers`) advanced one fuel step at a time by
`Nat.rec`; the named wrappers below satisfy, by definitional unfolding
(`rfl`), exactly the recurrences of the C functions, stated as the
`..._eq` equations that every proof works with.
-/

set_option maxHeartbeats 1000000

namespace Ejsc

/-- The NUL character, value 0.  The C code works on a null-terminated
byte string; reading at or past the end of the embedded list yields `nul`. -/
def nul : Char := Char.ofNat 0

/-- Read the byte at index `i` of the source text; out of range reads give
the terminating NUL, matching the C null-terminated string convention. -/
def getd (src : List Char) (i : Nat) : Char := src.getD i nul

/-- Variable record (struct var).  The active parse path never creates,
reads or writes these records; the tagged-union payload is irrelevant to
every claim, so the record keeps the key fields (name and type tag). -/
structure Var where
  name : List Char
  vtype : Nat
  deriving DecidableEq

/-- Parser instance state (struct ejs).  The jmp_buf exception_env field is
represented by the explicit error result of `PRes` instead of a stored jump
target; error_msg (char[100]) is the list of characters before the
terminating NUL. -/
structure Ejs where
  source_code : List Char
  cursor : Nat
  line_no : Nat
  tok : Nat
  tok_len : Nat
  symbol_table : List Var
  error_msg : List Char
  deriving DecidableEq

/-- ejs_create: calloc zero-initializes every field, so the cursor, the
line counter and the token span start at 0, the symbol table is the empty
circular list, and the error buffer holds the empty string. -/
def ejs_create : Ejs :=
  { source_code := [], cursor := 0, line_no := 0, tok := 0, tok_len := 0,
    symbol_table := [], error_msg := [] }

/-- The 256-entry character-class table of char_class in src/ejs.c,
transcribed row by row.  0 invalid, 1 delimiter, 2 digit, 3 hex digit,
4 letter. -/
def class_tab : List Nat :=
  [0, 0, 0, 0, 0, 0, 0, 0, 0, 1, 1, 0, 1, 0, 0, 0,
   0, 0, 0, 0, 0, 0, 0, 0, 0, 0, 0, 0, 0, 0, 0, 0,
   1, 1, 1, 1, 1, 1, 1, 1, 1, 1, 1, 1, 1, 1, 1, 1,
   2, 2, 2, 2, 2, 2, 2, 2, 2, 2, 1, 1, 1, 1, 1, 1,
   1, 3, 3, 3, 3, 3, 3, 4, 4, 4, 4, 4, 4, 4, 4, 4,
   4, 4, 4, 4, 4, 4, 4, 4, 4, 4, 4, 1, 1, 1, 1, 1,
   1, 3, 3, 3, 3, 3, 3, 4, 4, 4, 4, 4, 4, 4, 4, 4,
   4, 4, 4, 4, 4, 4, 4, 4, 4, 4, 4, 1, 1, 1, 1, 0,
   0, 0, 0, 0, 0, 0, 0, 0, 0, 0, 0, 0, 0, 0, 0, 0,
   0, 0, 0, 0, 0, 0, 0, 0, 0, 0, 0, 0, 0, 0, 0, 0,
   0, 0, 0, 0, 0, 0, 0, 0, 0, 0, 0, 0, 0, 0, 0, 0,
   0, 0, 0, 0, 0, 0, 0, 0, 0, 0, 0, 0, 0, 0, 0, 0,
   0, 0, 0, 0, 0, 0, 0, 0, 0, 0, 0, 0, 0, 0, 0, 0,
   0, 0, 0, 0, 0, 0, 0, 0, 0, 0, 0, 0, 0, 0, 0, 0,
   0, 0, 0, 0, 0, 0, 0, 0, 0, 0, 0, 0, 0, 0, 0, 0,
   0, 0, 0, 0, 0, 0, 0, 0, 0, 0, 0, 0, 0, 0, 0, 0]

/-- char_class: table lookup on the byte value.  Code points above 255
cannot occur in a C byte string and classify as invalid (0), consistent
with the table giving 0 to every byte at or above 0x80. -/
def char_class (c : Char) : Nat := class_tab.getD c.toNat 0

/-- is_alpha: class strictly above 2 (hex digits and letters). -/
def is_alpha (c : Char) : Bool := decide (2 < char_class c)

/-- is_alnum: class strictly above 1 (digits, hex digits, letters). -/
def is_alnum (c : Char) : Bool := decide (1 < char_class c)

/-- is_digit: class exactly 2. -/
def is_digit (c : Char) : Bool := decide (char_class c = 2)

/-- is_space: an explicit check against space, tab, CR, LF, independent of
the class table. -/
def is_space (c : Char) : Bool := c == ' ' || c == '\t' || c == '\r' || c == '\n'

/-- The whitespace loop of skip_whitespaces_and_comments: walk the input
from index `i`, whose remaining characters are the list argument, while the
current byte is non-NUL whitespace, counting one line per newline passed.
The empty-list case is the terminating NUL, where the C loop condition
fails as well.  Returns the new cursor and line counter. -/
def wsLoop : List Char → Nat → Nat → Nat × Nat
  | [], i, ln => (i, ln)
  | c :: t, i, ln =>
    if c ≠ nul ∧ is_space c then wsLoop t (i + 1) (if c = '\n' then ln + 1 else ln)
    else (i, ln)

/-- The comment loop of skip_whitespaces_and_comments: advance to the next
newline or NUL without consuming it; the empty-list case is the
terminating NUL. -/
def cmtLoop : List Char → Nat → Nat
  | [], i => i
  | c :: t, i => if c ≠ nul ∧ c ≠ '\n' then cmtLoop t (i + 1) else i

/-- skip_whitespaces_and_comments: only when the current byte is
whitespace, skip the whitespace run and then at most one line comment,
stopping at the newline or NUL that ends it. -/
def skip_whitespaces_and_comments (st : Ejs) : Ejs :=
  if is_space (getd st.source_code st.cursor) then
    match wsLoop (st.source_code.drop st.cursor) st.cursor st.line_no with
    | (i1, ln1) =>
      if getd st.source_code i1 = '/' ∧ getd st.source_code (i1 + 1) = '/' then
        { st with cursor := cmtLoop (st.source_code.drop (i1 + 2)) (i1 + 2), line_no := ln1 }
      else { st with cursor := i1, line_no := ln1 }
  else st

/-- The %.*s snippet of the die format string: at most 10 characters of the
remaining input, stopping at the terminating NUL. -/
def snippet (st : Ejs) : List Char :=
  ((st.source_code.drop st.cursor).takeWhile (fun c => c ≠ nul)).take 10

/-- The message vsnprintf writes for die's format "[%.*s]: %s": an opening
bracket, the snippet, "]: ", and the stringified failed condition, the
whole truncated to the 99 characters that fit the 100-byte buffer. -/
def mkDieMsg (st : Ejs) (cond : List Char) : List Char :=
  (('[' :: snippet st) ++ (']' :: ':' :: ' ' :: cond)).take 99

/-- die: format the diagnostic into the bounded error buffer, overwriting
its previous contents; the longjmp is the caller returning `PRes.err`. -/
def die (st : Ejs) (cond : List Char) : Ejs :=
  { st with error_msg := mkDieMsg st cond }

/-- The apostrophe character, kept out of string literals. -/
def apos : Char := Char.ofNat 39

/-- Stringified condition of the EXPECT in match. -/
def cond_match : List Char := "*ejs->cursor++ == ch".toList

/-- Stringified condition of the EXPECT in parse_num. -/
def cond_digit : List Char := "is_digit(ejs->cursor)".toList

/-- Stringified condition of the EXPECT in parse_identifier; the trailing
underscore is quoted with apostrophes as in the C source. -/
def cond_ident : List Char :=
  "is_alpha(ejs->cursor) || *ejs->cursor == ".toList ++ [apos, '_', apos]

/-- Outcome of a parse step: normal return, syntax error carrying the state
at the longjmp, or fuel exhaustion (an artifact of the embedding, proved
unreachable from ejs_exec). -/
inductive PRes where
  | ok (s : Ejs)
  | err (s : Ejs)
  | out (s : Ejs)
  deriving DecidableEq

/-- Sequencing: errors and fuel exhaustion abort the rest of the
computation, exactly as longjmp unwinds past the remaining calls. -/
def pbind (r : PRes) (g : Ejs → PRes) : PRes :=
  match r with
  | .ok s => g s
  | .err s => .err s
  | .out s => .out s

/-- The state carried by any outcome. -/
def resState : PRes → Ejs
  | .ok s => s
  | .err s => s
  | .out s => s

/-- match: unconditionally advance the cursor one byte (the post-increment
in the EXPECT), succeed and skip trailing whitespace when the byte read was
the expected one, otherwise die. -/
def ejs_match (st : Ejs) (ch : Char) : PRes :=
  if getd st.source_code st.cursor = ch then
    .ok (skip_whitespaces_and_comments { st with cursor := st.cursor + 1 })
  else .err (die { st with cursor := st.cursor + 1 } cond_match)

/-- test_and_skip: compare kwlen bytes at the cursor with the keyword (the
memcmp); on a match consume them and skip whitespace, otherwise leave the
state unchanged.  Callers pass kwlen equal to the keyword length. -/
def test_and_skip (st : Ejs) (kw : List Char) (kwlen : Nat) : Bool × Ejs :=
  if (List.range kwlen).map (fun j => getd st.source_code (st.cursor + j)) = kw.take kwlen then
    (true, skip_whitespaces_and_comments { st with cursor := st.cursor + kwlen })
  else (false, st)

/-- The digit loop of parse_num, accumulating result = result * 10 + digit
over the remaining input list; the empty-list case is the terminating NUL,
which is not a digit.  The C accumulator is an int whose value every
active caller discards; the embedding accumulates in Nat.  Returns the
value and the new cursor. -/
def numLoop : List Char → Nat → Nat → Nat × Nat
  | [], i, res => (res, i)
  | c :: t, i, res =>
    if is_digit c then numLoop t (i + 1) (res * 10 + (c.toNat - '0'.toNat)) else (res, i)

/-- parse_num: require a digit, consume the maximal digit run, record the
token span, skip trailing whitespace.  The numeric value is computed and
discarded, as every active caller of the C function does. -/
def parse_num (st : Ejs) : PRes :=
  if is_digit (getd st.source_code st.cursor) then
    match numLoop (st.source_code.drop st.cursor) st.cursor 0 with
    | (_, i1) =>
      .ok (skip_whitespaces_and_comments
        { st with cursor := i1, tok := st.cursor, tok_len := i1 - st.cursor })
  else .err (die st cond_digit)

/-- The continuation loop of parse_identifier: consume alphanumerics and
underscores; the empty-list case is the terminating NUL, which is neither. -/
def identLoop : List Char → Nat → Nat
  | [], i => i
  | c :: t, i => if is_alnum c ∨ c = '_' then identLoop t (i + 1) else i

/-- parse_identifier: require a letter or underscore, consume the maximal
identifier run, record the token span, skip trailing whitespace. -/
def parse_identifier (st : Ejs) : PRes :=
  if is_alpha (getd st.source_code st.cursor) ∨ getd st.source_code st.cursor = '_' then
    match identLoop (st.source_code.drop (st.cursor + 1)) (st.cursor + 1) with
    | j =>
      .ok (skip_whitespaces_and_comments
        { st with cursor := j, tok := st.cursor, tok_len := j - st.cursor })
  else .err (die st cond_ident)

/-- The eleven mutually recursive grammar functions of src/ejs.c at one
fuel level: the six named C functions plus the bodies of their five while
loops.  One fuel unit buys one call into any of them. -/
structure Parsers where
  factor : Ejs → PRes
  function_call : Ejs → PRes
  fcall_args : Ejs → PRes
  term : Ejs → PRes
  term_ops : Ejs → PRes
  expression : Ejs → PRes
  expr_ops : Ejs → PRes
  declaration : Ejs → PRes
  assignment : Ejs → PRes
  statement : Ejs → PRes
  statements : Ejs → PRes

/-- Fuel level zero: every call reports fuel exhaustion. -/
def parsersZero : Parsers :=
  { factor := fun st => .out st, function_call := fun st => .out st,
    fcall_args := fun st => .out st, term := fun st => .out st,
    term_ops := fun st => .out st, expression := fun st => .out st,
    expr_ops := fun st => .out st, declaration := fun st => .out st,
    assignment := fun st => .out st, statement := fun st => .out st,
    statements := fun st => .out st }

/-- One fuel step: the body of each C grammar function, with every
recursive call going through the previous fuel level `P`.  These bodies
are the direct translation of parse_factor, parse_function_call (and its
argument loop), parse_term (and its loop), parse_expression (and its
loop), parse_declaration, parse_assignment, parse_statement and the
statement loop of ejs_exec. -/
def parsersStep (P : Parsers) : Parsers where
  factor := fun st =>
    if getd st.source_code st.cursor = '(' then
      pbind (ejs_match st '(') fun st1 =>
      pbind (P.expression st1) fun st2 =>
      ejs_match st2 ')'
    else if is_alpha (getd st.source_code st.cursor) then
      pbind (parse_identifier st) fun st1 =>
      if getd st1.source_code st1.cursor = '(' then P.function_call st1 else .ok st1
    else parse_num st
  function_call := fun st => pbind (ejs_match st '(') fun st1 => P.fcall_args st1
  fcall_args := fun st =>
    if getd st.source_code st.cursor ≠ ')' then
      pbind (P.expression st) fun st1 =>
      if getd st1.source_code st1.cursor = ',' then
        pbind (ejs_match st1 ',') fun st2 => P.fcall_args st2
      else P.fcall_args st1
    else ejs_match st ')'
  term := fun st => pbind (P.factor st) fun st1 => P.term_ops st1
  term_ops := fun st =>
    if getd st.source_code st.cursor = '*' ∨ getd st.source_code st.cursor = '/' then
      pbind (ejs_match st (getd st.source_code st.cursor)) fun st1 =>
      pbind (P.factor st1) fun st2 => P.term_ops st2
    else .ok st
  expression := fun st => pbind (P.term st) fun st1 => P.expr_ops st1
  expr_ops := fun st =>
    if getd st.source_code st.cursor = '-' ∨ getd st.source_code st.cursor = '+' then
      pbind (ejs_match st (getd st.source_code st.cursor)) fun st1 =>
      pbind (P.term st1) fun st2 => P.expr_ops st2
    else .ok st
  declaration := fun st =>
    pbind (parse_identifier st) fun st1 =>
    pbind (ejs_match st1 '=') fun st2 =>
    pbind (P.expression st2) fun st3 =>
    match test_and_skip st3 [','] 1 with
    | (b, st4) => if b then P.declaration st4 else .ok st4
  assignment := fun st =>
    pbind (parse_identifier st) fun st1 =>
    pbind (ejs_match st1 '=') fun st2 =>
    P.expression st2
  statement := fun st =>
    match test_and_skip st ['v', 'a', 'r'] 3 with
    | (b, st1) =>
      pbind
        (if b then P.declaration st1
         else if is_alpha (getd st1.source_code st1.cursor) then P.assignment st1
         else P.expression st1) fun st2 =>
      ejs_match st2 ';'
  statements := fun st =>
    if getd st.source_code st.cursor ≠ nul then
      pbind (P.statement st) fun st1 => P.statements st1
    else .ok st

/-- The parser family at every fuel level, advanced by plain Nat
recursion. -/
def parsers (f : Nat) : Parsers :=
  Nat.rec parsersZero (fun _ ih => parsersStep ih) f

/-- parse_factor at fuel f. -/
def parse_factor (f : Nat) (st : Ejs) : PRes := (parsers f).factor st

/-- parse_function_call at fuel f. -/
def parse_function_call (f : Nat) (st : Ejs) : PRes := (parsers f).function_call st

/-- The argument loop of parse_function_call at fuel f. -/
def fcall_loop (f : Nat) (st : Ejs) : PRes := (parsers f).fcall_args st

/-- parse_term at fuel f. -/
def parse_term (f : Nat) (st : Ejs) : PRes := (parsers f).term st

/-- The multiplicative loop of parse_term at fuel f. -/
def term_loop (f : Nat) (st : Ejs) : PRes := (parsers f).term_ops st

/-- parse_expression at fuel f. -/
def parse_expression (f : Nat) (st : Ejs) : PRes := (parsers f).expression st

/-- The additive loop of parse_expression at fuel f. -/
def expr_loop (f : Nat) (st : Ejs) : PRes := (parsers f).expr_ops st

/-- parse_declaration at fuel f. -/
def parse_declaration (f : Nat) (st : Ejs) : PRes := (parsers f).declaration st

/-- parse_assignment at fuel f. -/
def parse_assignment (f : Nat) (st : Ejs) : PRes := (parsers f).assignment st

/-- parse_statement at fuel f. -/
def parse_statement (f : Nat) (st : Ejs) : PRes := (parsers f).statement st

/-- The statement loop of ejs_exec at fuel f. -/
def exec_loop (f : Nat) (st : Ejs) : PRes := (parsers f).statements st

/-- Fuel supplied to the statement loop; proved sufficient for any input of
this length, so the out outcome is unreachable from ejs_exec. -/
def ejsFuel (src : List Char) : Nat := 6 * (src.length + 2)

/-- ejs_exec: point source_code and the cursor at the new input (the line
counter is not reset), skip leading whitespace once, then parse statements
to the end.  Returns 1 on success and 0 when the error path was taken; the
impossible fuel-exhaustion outcome is mapped to 2. -/
def ejs_exec (st : Ejs) (src : List Char) : Nat × Ejs :=
  match exec_loop (ejsFuel src)
      (skip_whitespaces_and_comments { st with source_code := src, cursor := 0 }) with
  | .ok s => (1, s)
  | .err s => (0, s)
  | .out s => (2, s)

/-- Remaining input measure: distance from the cursor to one past the
terminating NUL. -/
def rem (st : Ejs) : Nat := st.source_code.length + 1 - st.cursor

/-- Relation between a scan state and the state after a successfully
returning (or fuel-exhausted) step: the source text and the symbol table
are untouched, the diagnostic buffer is untouched, the cursor and the line
counter do not decrease, and a cursor inside the input stays inside the
input. -/
structure StOk (a b : Ejs) : Prop where
  src : b.source_code = a.source_code
  sym : b.symbol_table = a.symbol_table
  msg : b.error_msg = a.error_msg
  cur : a.cursor ≤ b.cursor
  line : a.line_no ≤ b.line_no
  bound : a.cursor ≤ a.source_code.length → b.cursor ≤ a.source_code.length

/-- Relation between a scan state and the state carried by a syntax error:
the source text and the symbol table are untouched, cursor and line
counter do not decrease, a cursor inside the input moves at most one byte
past the terminating NUL (the blind post-increment of match), and the
diagnostic buffer holds a non-empty message of at most 99 characters. -/
structure ErrOk (a b : Ejs) : Prop where
  src : b.source_code = a.source_code
  sym : b.symbol_table = a.symbol_table
  cur : a.cursor ≤ b.cursor
  line : a.line_no ≤ b.line_no
  bound : a.cursor ≤ a.source_code.length → b.cursor ≤ a.source_code.length + 1
  msgNe : b.error_msg ≠ []
  msgLen : b.error_msg.length ≤ 99

/-- The step invariant: every outcome of a parse step relates to the
starting state by `StOk` (normal return and fuel exhaustion) or `ErrOk`
(syntax error). -/
def Inv (a : Ejs) : PRes → Prop
  | .ok b => StOk a b
  | .err b => ErrOk a b
  | .out b => StOk a b

/-- An outcome that is not fuel exhaustion. -/
def NotOut (r : PRes) : Prop := ∀ b, r ≠ .out b

/-- Replace the diagnostic buffer of a state. -/
def setMsg (m : List Char) (st : Ejs) : Ejs := { st with error_msg := m }

/-- The effect on an outcome of having started with diagnostic buffer `m`
instead: normal returns and fuel exhaustion carry the buffer through
untouched, a syntax error has overwritten it. -/
def mapMsg (m : List Char) : PRes → PRes
  | .ok s => .ok (setMsg m s)
  | .err s => .err s
  | .out s => .out (setMsg m s)

/-- Number of newline characters in a list, used to state the
line-counter bookkeeping of the whitespace skipper. -/
def nlCount : List Char → Nat
  | [] => 0
  | c :: t => (if c = '\n' then 1 else 0) + nlCount t

/-- A character that the total lookup returns as non-NUL lies inside the
list. -/
theorem getd_ne_nul_lt {src : List Char} {i : Nat} (h : getd src i ≠ nul) :
    i < src.length := by
  by_contra hge
  exact h (List.getD_eq_default _ _ (Nat.le_of_not_lt hge))

/-- Whitespace characters are not NUL. -/
theorem is_space_ne_nul {c : Char} (h : is_space c = true) : c ≠ nul := by
  intro he
  subst he
  exact absurd h (by decide)

/-- Digits are not NUL. -/
theorem is_digit_ne_nul {c : Char} (h : is_digit c = true) : c ≠ nul := by
  intro he
  rw [he] at h
  exact absurd h (by decide)

/-- Alphanumeric characters are not NUL. -/
theorem is_alnum_ne_nul {c : Char} (h : is_alnum c = true) : c ≠ nul := by
  intro he
  rw [he] at h
  exact absurd h (by decide)

/-- Recurrence of parse_factor, as written in C. -/
theorem parse_factor_eq (f : Nat) (st : Ejs) :
    parse_factor (f + 1) st =
      if getd st.source_code st.cursor = '(' then
        pbind (ejs_match st '(') fun st1 =>
        pbind (parse_expression f st1) fun st2 =>
        ejs_match st2 ')'
      else if is_alpha (getd st.source_code st.cursor) then
        pbind (parse_identifier st) fun st1 =>
        if getd st1.source_code st1.cursor = '(' then parse_function_call f st1 else .ok st1
      else parse_num st := rfl

/-- Recurrence of parse_function_call, as written in C. -/
theorem parse_function_call_eq (f : Nat) (st : Ejs) :
    parse_function_call (f + 1) st =
      pbind (ejs_match st '(') fun st1 => fcall_loop f st1 := rfl

/-- Recurrence of the argument loop of parse_function_call, as written in
C. -/
theorem fcall_loop_eq (f : Nat) (st : Ejs) :
    fcall_loop (f + 1) st =
      if getd st.source_code st.cursor ≠ ')' then
        pbind (parse_expression f st) fun st1 =>
        if getd st1.source_code st1.cursor = ',' then
          pbind (ejs_match st1 ',') fun st2 => fcall_loop f st2
        else fcall_loop f st1
      else ejs_match st ')' := rfl

/-- Recurrence of parse_term, as written in C. -/
theorem parse_term_eq (f : Nat) (st : Ejs) :
    parse_term (f + 1) st = pbind (parse_factor f st) fun st1 => term_loop f st1 := rfl

/-- Recurrence of the multiplicative loop of parse_term, as written in C. -/
theorem term_loop_eq (f : Nat) (st : Ejs) :
    term_loop (f + 1) st =
      if getd st.source_code st.cursor = '*' ∨ getd st.source_code st.cursor = '/' then
        pbind (ejs_match st (getd st.source_code st.cursor)) fun st1 =>
        pbind (parse_factor f st1) fun st2 => term_loop f st2
      else .ok st := rfl

/-- Recurrence of parse_expression, as written in C. -/
theorem parse_expression_eq (f : Nat) (st : Ejs) :
    parse_expression (f + 1) st = pbind (parse_term f st) fun st1 => expr_loop f st1 := rfl

/-- Recurrence of the additive loop of parse_expression, as written in C. -/
theorem expr_loop_eq (f : Nat) (st : Ejs) :
    expr_loop (f + 1) st =
      if getd st.source_code st.cursor = '-' ∨ getd st.source_code st.cursor = '+' then
        pbind (ejs_match st (getd st.source_code st.cursor)) fun st1 =>
        pbind (parse_term f st1) fun st2 => expr_loop f st2
      else .ok st := rfl

/-- Recurrence of parse_declaration, as written in C (do-while on the
consumed comma). -/
theorem parse_declaration_eq (f : Nat) (st : Ejs) :
    parse_declaration (f + 1) st =
      (pbind (parse_identifier st) fun st1 =>
       pbind (ejs_match st1 '=') fun st2 =>
       pbind (parse_expression f st2) fun st3 =>
       match test_and_skip st3 [','] 1 with
       | (b, st4) => if b then parse_declaration f st4 else .ok st4) := rfl

/-- Recurrence of parse_assignment, as written in C. -/
theorem parse_assignment_eq (f : Nat) (st : Ejs) :
    parse_assignment (f + 1) st =
      (pbind (parse_identifier st) fun st1 =>
       pbind (ejs_match st1 '=') fun st2 =>
       parse_expression f st2) := rfl

/-- Recurrence of parse_statement, as written in C. -/
theorem parse_statement_eq (f : Nat) (st : Ejs) :
    parse_statement (f + 1) st =
      (match test_and_skip st ['v', 'a', 'r'] 3 with
       | (b, st1) =>
         pbind
           (if b then parse_declaration f st1
            else if is_alpha (getd st1.source_code st1.cursor) then parse_assignment f st1
            else parse_expression f st1) fun st2 =>
         ejs_match st2 ';') := rfl

/-- Recurrence of the statement loop of ejs_exec, as written in C. -/
theorem exec_loop_eq (f : Nat) (st : Ejs) :
    exec_loop (f + 1) st =
      if getd st.source_code st.cursor ≠ nul then
        pbind (parse_statement f st) fun st1 => exec_loop f st1
      else .ok st := rfl

/-- At fuel zero every grammar function reports fuel exhaustion. -/
theorem parsers_zero_out (st : Ejs) :
    parse_factor 0 st = .out st ∧ parse_function_call 0 st = .out st ∧
    fcall_loop 0 st = .out st ∧ parse_term 0 st = .out st ∧
    term_loop 0 st = .out st ∧ parse_expression 0 st = .out st ∧
    expr_loop 0 st = .out st ∧ parse_declaration 0 st = .out st ∧
    parse_assignment 0 st = .out st ∧ parse_statement 0 st = .out st ∧
    exec_loop 0 st = .out st :=
  ⟨rfl, rfl, rfl, rfl, rfl, rfl, rfl, rfl, rfl, rfl, rfl⟩

/-- Letters are not NUL. -/
theorem is_alpha_ne_nul {c : Char} (h : is_alpha c = true) : c ≠ nul := by
  intro he
  rw [he] at h
  exact absurd h (by decide)

/-- The whitespace loop does not move the cursor backwards, does not move
it beyond the walked characters, and does not decrease the line counter. -/
theorem wsLoop_spec :
    ∀ (l : List Char) (i ln i1 ln1 : Nat), wsLoop l i ln = (i1, ln1) →
      i ≤ i1 ∧ i1 ≤ i + l.length ∧ ln ≤ ln1 := by
  intro l
  induction l with
  | nil =>
    intro i ln i1 ln1 h
    simp only [wsLoop, Prod.mk.injEq] at h
    omega
  | cons c t ih =>
    intro i ln i1 ln1 h
    simp only [wsLoop, List.length_cons] at h ⊢
    split at h
    · have hr := ih (i + 1) (if c = '\n' then ln + 1 else ln) i1 ln1 h
      have hln : ln ≤ (if c = '\n' then ln + 1 else ln) := by split <;> omega
      refine ⟨by omega, by omega, le_trans hln hr.2.2⟩
    · simp only [Prod.mk.injEq] at h
      omega

/-- The comment loop does not move the cursor backwards and does not move
it beyond the walked characters. -/
theorem cmtLoop_spec :
    ∀ (l : List Char) (i : Nat), i ≤ cmtLoop l i ∧ cmtLoop l i ≤ i + l.length := by
  intro l
  induction l with
  | nil => intro i; simp [cmtLoop]
  | cons c t ih =>
    intro i
    simp only [cmtLoop, List.length_cons]
    split
    · have h := ih (i + 1)
      exact ⟨by omega, by omega⟩
    · exact ⟨le_refl _, by omega⟩

/-- The digit loop does not move the cursor backwards and does not move it
beyond the walked characters. -/
theorem numLoop_spec :
    ∀ (l : List Char) (i res v i1 : Nat), numLoop l i res = (v, i1) →
      i ≤ i1 ∧ i1 ≤ i + l.length := by
  intro l
  induction l with
  | nil =>
    intro i res v i1 h
    simp only [numLoop, Prod.mk.injEq] at h
    omega
  | cons c t ih =>
    intro i res v i1 h
    simp only [numLoop, List.length_cons] at h ⊢
    split at h
    · have hr := ih (i + 1) (res * 10 + (c.toNat - '0'.toNat)) v i1 h
      exact ⟨by omega, by omega⟩
    · simp only [Prod.mk.injEq] at h
      omega

/-- The identifier loop does not move the cursor backwards and does not
move it beyond the walked characters. -/
theorem identLoop_spec :
    ∀ (l : List Char) (i : Nat), i ≤ identLoop l i ∧ identLoop l i ≤ i + l.length := by
  intro l
  induction l with
  | nil => intro i; simp [identLoop]
  | cons c t ih =>
    intro i
    simp only [identLoop, List.length_cons]
    split
    · have h := ih (i + 1)
      exact ⟨by omega, by omega⟩
    · exact ⟨le_refl _, by omega⟩

/-- `StOk` is reflexive. -/
theorem StOk_refl (a : Ejs) : StOk a a :=
  ⟨rfl, rfl, rfl, le_refl _, le_refl _, id⟩

/-- `StOk` composes. -/
theorem StOk_trans {a b c : Ejs} (h1 : StOk a b) (h2 : StOk b c) : StOk a c := by
  refine ⟨h2.src.trans h1.src, h2.sym.trans h1.sym, h2.msg.trans h1.msg,
    le_trans h1.cur h2.cur, le_trans h1.line h2.line, ?_⟩
  intro h
  have hb := h1.bound h
  have := h2.bound (by rw [h1.src]; exact hb)
  rw [h1.src] at this
  exact this

/-- `StOk` composes with `ErrOk` on the right. -/
theorem StOk_ErrOk_trans {a b c : Ejs} (h1 : StOk a b) (h2 : ErrOk b c) : ErrOk a c := by
  refine ⟨h2.src.trans h1.src, h2.sym.trans h1.sym, le_trans h1.cur h2.cur,
    le_trans h1.line h2.line, ?_, h2.msgNe, h2.msgLen⟩
  intro h
  have hb := h1.bound h
  have := h2.bound (by rw [h1.src]; exact hb)
  rw [h1.src] at this
  exact this

/-- A step invariant transports along a preceding `StOk` step. -/
theorem Inv_comp {a b : Ejs} {r : PRes} (h1 : StOk a b) (h2 : Inv b r) : Inv a r := by
  cases r with
  | ok s => exact StOk_trans h1 h2
  | err s => exact StOk_ErrOk_trans h1 h2
  | out s => exact StOk_trans h1 h2

/-- The step invariant is preserved by sequencing. -/
theorem Inv_bind {a : Ejs} {r : PRes} {g : Ejs → PRes}
    (h1 : Inv a r) (h2 : ∀ s, StOk a s → Inv s (g s)) : Inv a (pbind r g) := by
  cases r with
  | ok s => exact Inv_comp h1 (h2 s h1)
  | err s => exact h1
  | out s => exact h1

/-- skip_whitespaces_and_comments satisfies the normal-return relation:
it only moves the cursor forward within the input and only increases the
line counter. -/
theorem skip_StOk (st : Ejs) : StOk st (skip_whitespaces_and_comments st) := by
  unfold skip_whitespaces_and_comments
  split
  · rcases hw : wsLoop (st.source_code.drop st.cursor) st.cursor st.line_no with ⟨i1, ln1⟩
    have hws := wsLoop_spec _ _ _ _ _ hw
    simp only [List.length_drop] at hws
    obtain ⟨hc1, hc2, hl1⟩ := hws
    dsimp only
    split
    case isTrue hc =>
      have hcm := cmtLoop_spec (st.source_code.drop (i1 + 2)) (i1 + 2)
      simp only [List.length_drop] at hcm
      refine ⟨rfl, rfl, rfl, ?_, hl1, ?_⟩
      · dsimp only
        omega
      · intro hcur
        have hne : getd st.source_code (i1 + 1) ≠ nul := by
          rw [hc.2]; decide
        have hlt := getd_ne_nul_lt hne
        dsimp only
        omega
    case isFalse hc =>
      refine ⟨rfl, rfl, rfl, hc1, hl1, ?_⟩
      intro hcur
      dsimp only
      omega
  · exact StOk_refl st

/-- The message die writes is never empty. -/
theorem die_msg_ne (st : Ejs) (cond : List Char) : (die st cond).error_msg ≠ [] := by
  intro h
  have hlen := congrArg List.length h
  simp only [die, mkDieMsg, List.cons_append, List.length_take, List.length_cons,
    List.length_nil] at hlen
  omega

/-- The message die writes fits the 99 visible characters of the buffer. -/
theorem die_msg_len (st : Ejs) (cond : List Char) : (die st cond).error_msg.length ≤ 99 := by
  simp only [die, mkDieMsg, List.length_take]
  omega

/-- die satisfies the error relation relative to the state it is given. -/
theorem die_ErrOk (st : Ejs) (cond : List Char) : ErrOk st (die st cond) :=
  ⟨rfl, rfl, le_refl _, le_refl _, fun h => Nat.le_succ_of_le h,
   die_msg_ne st cond, die_msg_len st cond⟩

/-- match satisfies the step invariant whenever the expected character is
not NUL (every call in the grammar expects a printable character). -/
theorem ejs_match_Inv (st : Ejs) (ch : Char) (hch : ch ≠ nul) : Inv st (ejs_match st ch) := by
  unfold ejs_match
  split
  case isTrue h =>
    refine StOk_trans ?_ (skip_StOk _)
    refine ⟨rfl, rfl, rfl, Nat.le_succ _, le_refl _, ?_⟩
    intro hc
    have hlt := getd_ne_nul_lt (h ▸ hch : getd st.source_code st.cursor ≠ nul)
    dsimp only
    omega
  case isFalse h =>
    exact ⟨rfl, rfl, Nat.le_succ _, le_refl _, fun hc => Nat.succ_le_succ hc,
      die_msg_ne _ _, die_msg_len _ _⟩

/-- test_and_skip satisfies the normal-return relation whenever the
keyword prefix it compares contains no NUL (true of "var" and ","). -/
theorem test_and_skip_StOk (st : Ejs) (kw : List Char) (kwlen : Nat)
    (hkw : nul ∉ kw.take kwlen) : StOk st (test_and_skip st kw kwlen).2 := by
  unfold test_and_skip
  split
  case isTrue h =>
    refine StOk_trans ?_ (skip_StOk _)
    refine ⟨rfl, rfl, rfl, Nat.le_add_right _ _, le_refl _, ?_⟩
    intro hc
    rcases Nat.eq_zero_or_pos kwlen with h0 | hpos
    · dsimp only
      omega
    · have hget : getd st.source_code (st.cursor + (kwlen - 1)) ∈ kw.take kwlen := by
        rw [← h]
        exact List.mem_map_of_mem _ (List.mem_range.mpr (by omega))
      have hne : getd st.source_code (st.cursor + (kwlen - 1)) ≠ nul :=
        fun he => hkw (he ▸ hget)
      have hlt := getd_ne_nul_lt hne
      dsimp only
      omega
  case isFalse h => exact StOk_refl st

/-- parse_num satisfies the step invariant. -/
theorem parse_num_Inv (st : Ejs) : Inv st (parse_num st) := by
  unfold parse_num
  split
  case isTrue h =>
    rcases hn : numLoop (st.source_code.drop st.cursor) st.cursor 0 with ⟨res, i1⟩
    have hs := numLoop_spec _ _ _ _ _ hn
    simp only [List.length_drop] at hs
    dsimp only
    refine StOk_trans ?_ (skip_StOk _)
    exact ⟨rfl, rfl, rfl, hs.1, le_refl _, fun hc => by dsimp only; omega⟩
  case isFalse h => exact die_ErrOk st cond_digit

/-- parse_identifier satisfies the step invariant. -/
theorem parse_identifier_Inv (st : Ejs) : Inv st (parse_identifier st) := by
  unfold parse_identifier
  split
  case isTrue h =>
    have hs := identLoop_spec (st.source_code.drop (st.cursor + 1)) (st.cursor + 1)
    simp only [List.length_drop] at hs
    have hne : getd st.source_code st.cursor ≠ nul := by
      rcases h with ha | hu
      · exact is_alpha_ne_nul ha
      · rw [hu]; decide
    have hlt := getd_ne_nul_lt hne
    dsimp only
    refine StOk_trans ?_ (skip_StOk _)
    exact ⟨rfl, rfl, rfl, by dsimp only; omega, le_refl _, fun hc => by dsimp only; omega⟩
  case isFalse h => exact die_ErrOk st cond_ident

/-- The step invariant holds for every grammar function at every fuel
level: parsing never touches the source text or the symbol table, never
moves the cursor backwards or past one byte beyond the terminating NUL,
never decreases the line counter, leaves the diagnostic buffer untouched
on a normal return, and leaves a non-empty bounded diagnostic on a syntax
error. -/
theorem invAll :
    ∀ f : Nat, ∀ st : Ejs,
      Inv st (parse_factor f st) ∧ Inv st (parse_function_call f st) ∧
      Inv st (fcall_loop f st) ∧ Inv st (parse_term f st) ∧
      Inv st (term_loop f st) ∧ Inv st (parse_expression f st) ∧
      Inv st (expr_loop f st) ∧ Inv st (parse_declaration f st) ∧
      Inv st (parse_assignment f st) ∧ Inv st (parse_statement f st) ∧
      Inv st (exec_loop f st) := by
  intro f
  induction f with
  | zero =>
    intro st
    exact ⟨StOk_refl st, StOk_refl st, StOk_refl st, StOk_refl st, StOk_refl st, StOk_refl st,
      StOk_refl st, StOk_refl st, StOk_refl st, StOk_refl st, StOk_refl st⟩
  | succ f ih =>
    intro st
    refine ⟨?_, ?_, ?_, ?_, ?_, ?_, ?_, ?_, ?_, ?_, ?_⟩
    · -- parse_factor
      rw [parse_factor_eq]
      split
      · refine Inv_bind (ejs_match_Inv st '(' (by decide)) fun s1 _ => ?_
        refine Inv_bind (ih s1).2.2.2.2.2.1 fun s2 _ => ?_
        exact ejs_match_Inv s2 ')' (by decide)
      split
      · refine Inv_bind (parse_identifier_Inv st) fun s1 _ => ?_
        split
        · exact (ih s1).2.1
        · exact StOk_refl s1
      · exact parse_num_Inv st
    · -- parse_function_call
      rw [parse_function_call_eq]
      refine Inv_bind (ejs_match_Inv st '(' (by decide)) fun s1 _ => ?_
      exact (ih s1).2.2.1
    · -- fcall_loop
      rw [fcall_loop_eq]
      split
      · refine Inv_bind (ih st).2.2.2.2.2.1 fun s1 _ => ?_
        split
        · refine Inv_bind (ejs_match_Inv s1 ',' (by decide)) fun s2 _ => ?_
          exact (ih s2).2.2.1
        · exact (ih s1).2.2.1
      · exact ejs_match_Inv st ')' (by decide)
    · -- parse_term
      rw [parse_term_eq]
      refine Inv_bind (ih st).1 fun s1 _ => ?_
      exact (ih s1).2.2.2.2.1
    · -- term_loop
      rw [term_loop_eq]
      split
      case isTrue h =>
        have hch : getd st.source_code st.cursor ≠ nul := by
          rcases h with h | h <;> rw [h] <;> decide
        refine Inv_bind (ejs_match_Inv st _ hch) fun s1 _ => ?_
        refine Inv_bind (ih s1).1 fun s2 _ => ?_
        exact (ih s2).2.2.2.2.1
      case isFalse h => exact StOk_refl st
    · -- parse_expression
      rw [parse_expression_eq]
      refine Inv_bind (ih st).2.2.2.1 fun s1 _ => ?_
      exact (ih s1).2.2.2.2.2.2.1
    · -- expr_loop
      rw [expr_loop_eq]
      split
      case isTrue h =>
        have hch : getd st.source_code st.cursor ≠ nul := by
          rcases h with h | h <;> rw [h] <;> decide
        refine Inv_bind (ejs_match_Inv st _ hch) fun s1 _ => ?_
        refine Inv_bind (ih s1).2.2.2.1 fun s2 _ => ?_
        exact (ih s2).2.2.2.2.2.2.1
      case isFalse h => exact StOk_refl st
    · -- parse_declaration
      rw [parse_declaration_eq]
      refine Inv_bind (parse_identifier_Inv st) fun s1 _ => ?_
      refine Inv_bind (ejs_match_Inv s1 '=' (by decide)) fun s2 _ => ?_
      refine Inv_bind (ih s2).2.2.2.2.2.1 fun s3 _ => ?_
      rcases ht : test_and_skip s3 [','] 1 with ⟨b, s4⟩
      dsimp only
      have hts := test_and_skip_StOk s3 [','] 1 (by decide)
      rw [ht] at hts
      dsimp only at hts
      split
      · exact Inv_comp hts (ih s4).2.2.2.2.2.2.2.1
      · exact hts
    · -- parse_assignment
      rw [parse_assignment_eq]
      refine Inv_bind (parse_identifier_Inv st) fun s1 _ => ?_
      refine Inv_bind (ejs_match_Inv s1 '=' (by decide)) fun s2 _ => ?_
      exact (ih s2).2.2.2.2.2.1
    · -- parse_statement
      rw [parse_statement_eq]
      rcases ht : test_and_skip st ['v', 'a', 'r'] 3 with ⟨b, s1⟩
      dsimp only
      have hts := test_and_skip_StOk st ['v', 'a', 'r'] 3 (by decide)
      rw [ht] at hts
      dsimp only at hts
      refine Inv_bind ?_ fun s2 _ => ejs_match_Inv s2 ';' (by decide)
      split
      · exact Inv_comp hts (ih s1).2.2.2.2.2.2.2.1
      · split
        · exact Inv_comp hts (ih s1).2.2.2.2.2.2.2.2.1
        · exact Inv_comp hts (ih s1).2.2.2.2.2.1
    · -- exec_loop
      rw [exec_loop_eq]
      split
      · refine Inv_bind (ih st).2.2.2.2.2.2.2.2.2.1 fun s1 _ => ?_
        exact (ih s1).2.2.2.2.2.2.2.2.2.2
      · exact StOk_refl st

/-- An invariant at a normal return is the normal-return relation. -/
theorem StOk_of_ok {a s : Ejs} {r : PRes} (hInv : Inv a r) (h : r = .ok s) : StOk a s := by
  subst h
  exact hInv

/-- A successful sequencing splits into a successful first step and a
successful continuation. -/
theorem pbind_ok {r : PRes} {g : Ejs → PRes} {s : Ejs} (h : pbind r g = .ok s) :
    ∃ s1, r = .ok s1 ∧ g s1 = .ok s := by
  cases r with
  | ok a => exact ⟨a, rfl, h⟩
  | err a => exact PRes.noConfusion h
  | out a => exact PRes.noConfusion h

/-- A fuel-exhausted sequencing was fuel-exhausted in the first step or in
the continuation after a successful first step. -/
theorem pbind_out {r : PRes} {g : Ejs → PRes} {b : Ejs} (h : pbind r g = .out b) :
    r = .out b ∨ ∃ s1, r = .ok s1 ∧ g s1 = .out b := by
  cases r with
  | ok a => exact Or.inr ⟨a, rfl, h⟩
  | err a => exact PRes.noConfusion h
  | out a => exact Or.inl h

/-- A normal return is not fuel exhaustion. -/
theorem ok_not_out {s : Ejs} : NotOut (.ok s) := fun _ h => PRes.noConfusion h

/-- A syntax error is not fuel exhaustion. -/
theorem err_not_out {s : Ejs} : NotOut (.err s) := fun _ h => PRes.noConfusion h

/-- match never runs out of fuel. -/
theorem ejs_match_not_out (st : Ejs) (ch : Char) : NotOut (ejs_match st ch) := by
  unfold ejs_match
  split
  · exact ok_not_out
  · exact err_not_out

/-- parse_num never runs out of fuel. -/
theorem parse_num_not_out (st : Ejs) : NotOut (parse_num st) := by
  unfold parse_num
  split
  · rcases hn : numLoop (st.source_code.drop st.cursor) st.cursor 0 with ⟨v, i1⟩
    exact ok_not_out
  · exact err_not_out

/-- parse_identifier never runs out of fuel. -/
theorem parse_identifier_not_out (st : Ejs) : NotOut (parse_identifier st) := by
  unfold parse_identifier
  split
  · exact ok_not_out
  · exact err_not_out

/-- A successful match moved the cursor strictly forward. -/
theorem ejs_match_ok_cur {st : Ejs} {ch : Char} {s : Ejs} (h : ejs_match st ch = .ok s) :
    st.cursor < s.cursor := by
  unfold ejs_match at h
  split at h
  · cases h
    have hsk := (skip_StOk { st with cursor := st.cursor + 1 }).cur
    dsimp only at hsk
    omega
  · exact PRes.noConfusion h

/-- A successful parse_identifier moved the cursor strictly forward. -/
theorem parse_identifier_ok_cur {st s : Ejs} (h : parse_identifier st = .ok s) :
    st.cursor < s.cursor := by
  unfold parse_identifier at h
  split at h
  · dsimp only at h
    cases h
    have hid := (identLoop_spec (st.source_code.drop (st.cursor + 1)) (st.cursor + 1)).1
    refine lt_of_lt_of_le ?_ (skip_StOk _).cur
    dsimp only
    omega
  · exact PRes.noConfusion h

/-- The remaining input at an in-range index starts with the byte the
total lookup reads there. -/
theorem drop_eq_getd_cons {src : List Char} {i : Nat} (h : i < src.length) :
    src.drop i = getd src i :: src.drop (i + 1) := by
  rw [List.drop_eq_getElem_cons h, getd, List.getD_eq_getElem _ _ h]

/-- A successful parse_num moved the cursor strictly forward. -/
theorem parse_num_ok_cur {st s : Ejs} (h : parse_num st = .ok s) :
    st.cursor < s.cursor := by
  unfold parse_num at h
  split at h
  case isTrue hd =>
    have hlt := getd_ne_nul_lt (is_digit_ne_nul hd)
    rcases hn : numLoop (st.source_code.drop st.cursor) st.cursor 0 with ⟨v, i1⟩
    rw [hn] at h
    dsimp only at h
    cases h
    have hstep : st.cursor + 1 ≤ i1 := by
      rw [drop_eq_getd_cons hlt] at hn
      simp only [numLoop, if_pos hd] at hn
      exact (numLoop_spec _ _ _ _ _ hn).1
    refine lt_of_lt_of_le ?_ (skip_StOk _).cur
    dsimp only
    omega
  case isFalse hd => exact PRes.noConfusion h

/-- Progress: parse_factor, parse_term, parse_expression,
parse_declaration, parse_assignment and parse_statement consume at least
one byte whenever they return normally. -/
theorem progAll :
    ∀ f : Nat, ∀ st : Ejs,
      (∀ s, parse_factor f st = .ok s → st.cursor < s.cursor) ∧
      (∀ s, parse_term f st = .ok s → st.cursor < s.cursor) ∧
      (∀ s, parse_expression f st = .ok s → st.cursor < s.cursor) ∧
      (∀ s, parse_declaration f st = .ok s → st.cursor < s.cursor) ∧
      (∀ s, parse_assignment f st = .ok s → st.cursor < s.cursor) ∧
      (∀ s, parse_statement f st = .ok s → st.cursor < s.cursor) := by
  intro f
  induction f with
  | zero =>
    intro st
    exact ⟨fun s h => PRes.noConfusion h, fun s h => PRes.noConfusion h,
      fun s h => PRes.noConfusion h, fun s h => PRes.noConfusion h,
      fun s h => PRes.noConfusion h, fun s h => PRes.noConfusion h⟩
  | succ f ih =>
    intro st
    refine ⟨?_, ?_, ?_, ?_, ?_, ?_⟩
    · -- parse_factor
      intro s h
      rw [parse_factor_eq] at h
      split at h
      · obtain ⟨s1, h1, h2⟩ := pbind_ok h
        obtain ⟨s2, h2a, h2b⟩ := pbind_ok h2
        have hp1 := ejs_match_ok_cur h1
        have hp2 := (StOk_of_ok (invAll f s1).2.2.2.2.2.1 h2a).cur
        have hp3 := ejs_match_ok_cur h2b
        omega
      split at h
      · obtain ⟨s1, h1, h2⟩ := pbind_ok h
        have hp1 := parse_identifier_ok_cur h1
        split at h2
        · have hp2 := (StOk_of_ok (invAll f s1).2.1 h2).cur
          omega
        · cases h2
          omega
      · exact parse_num_ok_cur h
    · -- parse_term
      intro s h
      rw [parse_term_eq] at h
      obtain ⟨s1, h1, h2⟩ := pbind_ok h
      have hp1 := (ih st).1 s1 h1
      have hp2 := (StOk_of_ok (invAll f s1).2.2.2.2.1 h2).cur
      omega
    · -- parse_expression
      intro s h
      rw [parse_expression_eq] at h
      obtain ⟨s1, h1, h2⟩ := pbind_ok h
      have hp1 := (ih st).2.1 s1 h1
      have hp2 := (StOk_of_ok (invAll f s1).2.2.2.2.2.2.1 h2).cur
      omega
    · -- parse_declaration
      intro s h
      rw [parse_declaration_eq] at h
      obtain ⟨s1, h1, h2⟩ := pbind_ok h
      have hp1 := parse_identifier_ok_cur h1
      have htail : Inv s1 (pbind (ejs_match s1 '=') fun s2 =>
          pbind (parse_expression f s2) fun s3 =>
          match test_and_skip s3 [','] 1 with
          | (b, st4) => if b then parse_declaration f st4 else PRes.ok st4) := by
        refine Inv_bind (ejs_match_Inv s1 '=' (by decide)) fun s2 _ => ?_
        refine Inv_bind (invAll f s2).2.2.2.2.2.1 fun s3 _ => ?_
        rcases ht : test_and_skip s3 [','] 1 with ⟨b, s4⟩
        dsimp only
        have hts := test_and_skip_StOk s3 [','] 1 (by decide)
        rw [ht] at hts
        dsimp only at hts
        split
        · exact Inv_comp hts (invAll f s4).2.2.2.2.2.2.2.1
        · exact hts
      have hp2 := (StOk_of_ok htail h2).cur
      omega
    · -- parse_assignment
      intro s h
      rw [parse_assignment_eq] at h
      obtain ⟨s1, h1, h2⟩ := pbind_ok h
      have hp1 := parse_identifier_ok_cur h1
      have htail : Inv s1 (pbind (ejs_match s1 '=') fun s2 => parse_expression f s2) :=
        Inv_bind (ejs_match_Inv s1 '=' (by decide)) fun s2 _ => (invAll f s2).2.2.2.2.2.1
      have hp2 := (StOk_of_ok htail h2).cur
      omega
    · -- parse_statement
      intro s h
      rw [parse_statement_eq] at h
      rcases ht : test_and_skip st ['v', 'a', 'r'] 3 with ⟨b, s1⟩
      rw [ht] at h
      dsimp only at h
      obtain ⟨s2, h1, h2⟩ := pbind_ok h
      have hts := test_and_skip_StOk st ['v', 'a', 'r'] 3 (by decide)
      rw [ht] at hts
      dsimp only at hts
      have hp3 := ejs_match_ok_cur h2
      have hp0 := hts.cur
      split at h1
      · have hp1 := (ih s1).2.2.2.1 s2 h1
        omega
      · split at h1
        · have hp1 := (ih s1).2.2.2.2.1 s2 h1
          omega
        · have hp1 := (ih s1).2.2.1 s2 h1
          omega

/-- A normal-return step starting inside the input ends inside the input. -/
theorem StOk_pres {a s : Ejs} (h : StOk a s) (hc : a.cursor ≤ a.source_code.length) :
    s.cursor ≤ s.source_code.length := by
  rw [h.src]
  exact h.bound hc

/-- Sequencing does not exhaust fuel when neither part does. -/
theorem pbind_not_out {r : PRes} {g : Ejs → PRes}
    (h1 : NotOut r) (h2 : ∀ s1, r = .ok s1 → NotOut (g s1)) : NotOut (pbind r g) := by
  intro b hb
  rcases pbind_out hb with h | ⟨s1, hs1, hg⟩
  · exact h1 b h
  · exact h2 s1 hs1 b hg

/-- Fuel sufficiency: a budget of six fuel units per remaining input byte
(plus a small constant per production) never exhausts, for any state whose
cursor is inside the input.  Each conjunct carries the constant its
production needs. -/
theorem suffAll :
    ∀ f : Nat, ∀ st : Ejs, st.cursor ≤ st.source_code.length →
      ((1 + 6 * rem st ≤ f → NotOut (parse_factor f st)) ∧
       (1 + 6 * rem st ≤ f → NotOut (parse_function_call f st)) ∧
       (4 + 6 * rem st ≤ f → NotOut (fcall_loop f st)) ∧
       (2 + 6 * rem st ≤ f → NotOut (parse_term f st)) ∧
       (1 + 6 * rem st ≤ f → NotOut (term_loop f st)) ∧
       (3 + 6 * rem st ≤ f → NotOut (parse_expression f st)) ∧
       (1 + 6 * rem st ≤ f → NotOut (expr_loop f st)) ∧
       (1 + 6 * rem st ≤ f → NotOut (parse_declaration f st)) ∧
       (1 + 6 * rem st ≤ f → NotOut (parse_assignment f st)) ∧
       (4 + 6 * rem st ≤ f → NotOut (parse_statement f st)) ∧
       (5 + 6 * rem st ≤ f → NotOut (exec_loop f st))) := by
  intro f
  induction f with
  | zero =>
    intro st hcb
    exact ⟨fun h => absurd h (by omega), fun h => absurd h (by omega),
      fun h => absurd h (by omega), fun h => absurd h (by omega),
      fun h => absurd h (by omega), fun h => absurd h (by omega),
      fun h => absurd h (by omega), fun h => absurd h (by omega),
      fun h => absurd h (by omega), fun h => absurd h (by omega),
      fun h => absurd h (by omega)⟩
  | succ f ih =>
    intro st hcb
    have hrem : rem st = st.source_code.length + 1 - st.cursor := rfl
    refine ⟨?_, ?_, ?_, ?_, ?_, ?_, ?_, ?_, ?_, ?_, ?_⟩
    · -- parse_factor
      intro hf
      rw [hrem] at hf
      rw [parse_factor_eq]
      split
      · refine pbind_not_out (ejs_match_not_out st '(') fun s1 h1 => ?_
        have hS1 := StOk_of_ok (ejs_match_Inv st '(' (by decide)) h1
        have hcu1 := ejs_match_ok_cur h1
        have hc1 := StOk_pres hS1 hcb
        have e1 : rem s1 = st.source_code.length + 1 - s1.cursor := by
          simp [rem, hS1.src]
        refine pbind_not_out ((ih s1 hc1).2.2.2.2.2.1 (by omega)) fun s2 h2 => ?_
        exact ejs_match_not_out s2 ')'
      split
      · refine pbind_not_out (parse_identifier_not_out st) fun s1 h1 => ?_
        have hS1 := StOk_of_ok (parse_identifier_Inv st) h1
        have hcu1 := parse_identifier_ok_cur h1
        have hc1 := StOk_pres hS1 hcb
        have e1 : rem s1 = st.source_code.length + 1 - s1.cursor := by
          simp [rem, hS1.src]
        split
        · exact (ih s1 hc1).2.1 (by omega)
        · exact ok_not_out
      · exact parse_num_not_out st
    · -- parse_function_call
      intro hf
      rw [hrem] at hf
      rw [parse_function_call_eq]
      refine pbind_not_out (ejs_match_not_out st '(') fun s1 h1 => ?_
      have hS1 := StOk_of_ok (ejs_match_Inv st '(' (by decide)) h1
      have hcu1 := ejs_match_ok_cur h1
      have hc1 := StOk_pres hS1 hcb
      have e1 : rem s1 = st.source_code.length + 1 - s1.cursor := by
        simp [rem, hS1.src]
      exact (ih s1 hc1).2.2.1 (by omega)
    · -- fcall_loop
      intro hf
      rw [hrem] at hf
      rw [fcall_loop_eq]
      split
      · refine pbind_not_out ((ih st hcb).2.2.2.2.2.1 (by omega)) fun s1 h1 => ?_
        have hS1 := StOk_of_ok (invAll f st).2.2.2.2.2.1 h1
        have hcu1 := (progAll f st).2.2.1 s1 h1
        have hc1 := StOk_pres hS1 hcb
        have e1 : rem s1 = st.source_code.length + 1 - s1.cursor := by
          simp [rem, hS1.src]
        split
        · refine pbind_not_out (ejs_match_not_out s1 ',') fun s2 h2 => ?_
          have hS2 := StOk_of_ok (ejs_match_Inv s1 ',' (by decide)) h2
          have hcu2 := ejs_match_ok_cur h2
          have hc2 := StOk_pres hS2 hc1
          have e2 : rem s2 = st.source_code.length + 1 - s2.cursor := by
            simp [rem, hS2.src, hS1.src]
          exact (ih s2 hc2).2.2.1 (by omega)
        · exact (ih s1 hc1).2.2.1 (by omega)
      · exact ejs_match_not_out st ')'
    · -- parse_term
      intro hf
      rw [hrem] at hf
      rw [parse_term_eq]
      refine pbind_not_out ((ih st hcb).1 (by omega)) fun s1 h1 => ?_
      have hS1 := StOk_of_ok (invAll f st).1 h1
      have hcu1 := (progAll f st).1 s1 h1
      have hc1 := StOk_pres hS1 hcb
      have e1 : rem s1 = st.source_code.length + 1 - s1.cursor := by
        simp [rem, hS1.src]
      exact (ih s1 hc1).2.2.2.2.1 (by omega)
    · -- term_loop
      intro hf
      rw [hrem] at hf
      rw [term_loop_eq]
      split
      case isTrue hop =>
        have hch : getd st.source_code st.cursor ≠ nul := by
          rcases hop with h | h <;> rw [h] <;> decide
        refine pbind_not_out (ejs_match_not_out st _) fun s1 h1 => ?_
        have hS1 := StOk_of_ok (ejs_match_Inv st _ hch) h1
        have hcu1 := ejs_match_ok_cur h1
        have hc1 := StOk_pres hS1 hcb
        have e1 : rem s1 = st.source_code.length + 1 - s1.cursor := by
          simp [rem, hS1.src]
        refine pbind_not_out ((ih s1 hc1).1 (by omega)) fun s2 h2 => ?_
        have hS2 := StOk_of_ok (invAll f s1).1 h2
        have hcu2 := (progAll f s1).1 s2 h2
        have hc2 := StOk_pres hS2 hc1
        have e2 : rem s2 = st.source_code.length + 1 - s2.cursor := by
          simp [rem, hS2.src, hS1.src]
        exact (ih s2 hc2).2.2.2.2.1 (by omega)
      case isFalse hop => exact ok_not_out
    · -- parse_expression
      intro hf
      rw [hrem] at hf
      rw [parse_expression_eq]
      refine pbind_not_out ((ih st hcb).2.2.2.1 (by omega)) fun s1 h1 => ?_
      have hS1 := StOk_of_ok (invAll f st).2.2.2.1 h1
      have hcu1 := (progAll f st).2.1 s1 h1
      have hc1 := StOk_pres hS1 hcb
      have e1 : rem s1 = st.source_code.length + 1 - s1.cursor := by
        simp [rem, hS1.src]
      exact (ih s1 hc1).2.2.2.2.2.2.1 (by omega)
    · -- expr_loop
      intro hf
      rw [hrem] at hf
      rw [expr_loop_eq]
      split
      case isTrue hop =>
        have hch : getd st.source_code st.cursor ≠ nul := by
          rcases hop with h | h <;> rw [h] <;> decide
        refine pbind_not_out (ejs_match_not_out st _) fun s1 h1 => ?_
        have hS1 := StOk_of_ok (ejs_match_Inv st _ hch) h1
        have hcu1 := ejs_match_ok_cur h1
        have hc1 := StOk_pres hS1 hcb
        have e1 : rem s1 = st.source_code.length + 1 - s1.cursor := by
          simp [rem, hS1.src]
        refine pbind_not_out ((ih s1 hc1).2.2.2.1 (by omega)) fun s2 h2 => ?_
        have hS2 := StOk_of_ok (invAll f s1).2.2.2.1 h2
        have hcu2 := (progAll f s1).2.1 s2 h2
        have hc2 := StOk_pres hS2 hc1
        have e2 : rem s2 = st.source_code.length + 1 - s2.cursor := by
          simp [rem, hS2.src, hS1.src]
        exact (ih s2 hc2).2.2.2.2.2.2.1 (by omega)
      case isFalse hop => exact ok_not_out
    · -- parse_declaration
      intro hf
      rw [hrem] at hf
      rw [parse_declaration_eq]
      refine pbind_not_out (parse_identifier_not_out st) fun s1 h1 => ?_
      have hS1 := StOk_of_ok (parse_identifier_Inv st) h1
      have hcu1 := parse_identifier_ok_cur h1
      have hc1 := StOk_pres hS1 hcb
      have e1 : rem s1 = st.source_code.length + 1 - s1.cursor := by
        simp [rem, hS1.src]
      refine pbind_not_out (ejs_match_not_out s1 '=') fun s2 h2 => ?_
      have hS2 := StOk_of_ok (ejs_match_Inv s1 '=' (by decide)) h2
      have hcu2 := ejs_match_ok_cur h2
      have hc2 := StOk_pres hS2 hc1
      have e2 : rem s2 = st.source_code.length + 1 - s2.cursor := by
        simp [rem, hS2.src, hS1.src]
      refine pbind_not_out ((ih s2 hc2).2.2.2.2.2.1 (by omega)) fun s3 h3 => ?_
      have hS3 := StOk_of_ok (invAll f s2).2.2.2.2.2.1 h3
      have hcu3 := (progAll f s2).2.2.1 s3 h3
      have hc3 := StOk_pres hS3 hc2
      have e3 : rem s3 = st.source_code.length + 1 - s3.cursor := by
        simp [rem, hS3.src, hS2.src, hS1.src]
      rcases ht : test_and_skip s3 [','] 1 with ⟨b, s4⟩
      dsimp only
      have hts := test_and_skip_StOk s3 [','] 1 (by decide)
      rw [ht] at hts
      dsimp only at hts
      split
      · have hc4 := StOk_pres hts hc3
        have e4 : rem s4 = st.source_code.length + 1 - s4.cursor := by
          simp [rem, hts.src, hS3.src, hS2.src, hS1.src]
        have hcu4 := hts.cur
        exact (ih s4 hc4).2.2.2.2.2.2.2.1 (by omega)
      · exact ok_not_out
    · -- parse_assignment
      intro hf
      rw [hrem] at hf
      rw [parse_assignment_eq]
      refine pbind_not_out (parse_identifier_not_out st) fun s1 h1 => ?_
      have hS1 := StOk_of_ok (parse_identifier_Inv st) h1
      have hcu1 := parse_identifier_ok_cur h1
      have hc1 := StOk_pres hS1 hcb
      have e1 : rem s1 = st.source_code.length + 1 - s1.cursor := by
        simp [rem, hS1.src]
      refine pbind_not_out (ejs_match_not_out s1 '=') fun s2 h2 => ?_
      have hS2 := StOk_of_ok (ejs_match_Inv s1 '=' (by decide)) h2
      have hcu2 := ejs_match_ok_cur h2
      have hc2 := StOk_pres hS2 hc1
      have e2 : rem s2 = st.source_code.length + 1 - s2.cursor := by
        simp [rem, hS2.src, hS1.src]
      exact (ih s2 hc2).2.2.2.2.2.1 (by omega)
    · -- parse_statement
      intro hf
      rw [hrem] at hf
      rw [parse_statement_eq]
      rcases ht : test_and_skip st ['v', 'a', 'r'] 3 with ⟨b, s1⟩
      dsimp only
      have hts := test_and_skip_StOk st ['v', 'a', 'r'] 3 (by decide)
      rw [ht] at hts
      dsimp only at hts
      have hc1 := StOk_pres hts hcb
      have e1 : rem s1 = st.source_code.length + 1 - s1.cursor := by
        simp [rem, hts.src]
      have hcu1 := hts.cur
      refine pbind_not_out ?_ fun s2 h2 => ejs_match_not_out s2 ';'
      split
      · exact (ih s1 hc1).2.2.2.2.2.2.2.1 (by omega)
      · split
        · exact (ih s1 hc1).2.2.2.2.2.2.2.2.1 (by omega)
        · exact (ih s1 hc1).2.2.2.2.2.1 (by omega)
    · -- exec_loop
      intro hf
      rw [hrem] at hf
      rw [exec_loop_eq]
      split
      · refine pbind_not_out ((ih st hcb).2.2.2.2.2.2.2.2.2.1 (by omega)) fun s1 h1 => ?_
        have hS1 := StOk_of_ok (invAll f st).2.2.2.2.2.2.2.2.2.1 h1
        have hcu1 := (progAll f st).2.2.2.2.2 s1 h1
        have hc1 := StOk_pres hS1 hcb
        have e1 : rem s1 = st.source_code.length + 1 - s1.cursor := by
          simp [rem, hS1.src]
        exact (ih s1 hc1).2.2.2.2.2.2.2.2.2.2 (by omega)
      · exact ok_not_out

/-- setMsg leaves the source text in place. -/
theorem setMsg_source_code (m : List Char) (st : Ejs) :
    (setMsg m st).source_code = st.source_code := rfl

/-- setMsg leaves the cursor in place. -/
theorem setMsg_cursor (m : List Char) (st : Ejs) : (setMsg m st).cursor = st.cursor := rfl

/-- The whitespace skipper never reads or writes the diagnostic buffer. -/
theorem skip_setMsg (m : List Char) (st : Ejs) :
    skip_whitespaces_and_comments (setMsg m st) =
      setMsg m (skip_whitespaces_and_comments st) := by
  unfold skip_whitespaces_and_comments setMsg
  dsimp only
  split
  · rcases hw : wsLoop (st.source_code.drop st.cursor) st.cursor st.line_no with ⟨i1, ln1⟩
    dsimp only
    split <;> rfl
  · rfl

/-- die overwrites the diagnostic buffer without reading it. -/
theorem die_setMsg (m : List Char) (st : Ejs) (cond : List Char) :
    die (setMsg m st) cond = die st cond := by
  unfold die setMsg mkDieMsg snippet
  rfl

/-- match neither reads nor keeps the starting diagnostic buffer: the
buffer rides along on success and is overwritten by die on failure. -/
theorem ejs_match_setMsg (m : List Char) (st : Ejs) (ch : Char) :
    ejs_match (setMsg m st) ch = mapMsg m (ejs_match st ch) := by
  unfold ejs_match
  simp only [setMsg_source_code, setMsg_cursor]
  split
  · show PRes.ok (skip_whitespaces_and_comments (setMsg m { st with cursor := st.cursor + 1 })) = _
    rw [skip_setMsg]
    rfl
  · show PRes.err (die (setMsg m { st with cursor := st.cursor + 1 }) cond_match) = _
    rw [die_setMsg]
    rfl

/-- test_and_skip neither reads nor drops the diagnostic buffer. -/
theorem test_and_skip_setMsg (m : List Char) (st : Ejs) (kw : List Char) (kwlen : Nat) :
    test_and_skip (setMsg m st) kw kwlen =
      ((test_and_skip st kw kwlen).1, setMsg m (test_and_skip st kw kwlen).2) := by
  unfold test_and_skip
  simp only [setMsg_source_code, setMsg_cursor]
  split
  · show (true, skip_whitespaces_and_comments (setMsg m { st with cursor := st.cursor + kwlen })) = _
    rw [skip_setMsg]
  · rfl

/-- parse_num neither reads nor keeps the starting diagnostic buffer. -/
theorem parse_num_setMsg (m : List Char) (st : Ejs) :
    parse_num (setMsg m st) = mapMsg m (parse_num st) := by
  unfold parse_num
  simp only [setMsg_source_code, setMsg_cursor]
  split
  · rcases hn : numLoop (st.source_code.drop st.cursor) st.cursor 0 with ⟨v, i1⟩
    dsimp only
    show PRes.ok (skip_whitespaces_and_comments (setMsg m { st with
      cursor := i1, tok := st.cursor, tok_len := i1 - st.cursor })) = _
    rw [skip_setMsg]
    rfl
  · show PRes.err (die (setMsg m st) cond_digit) = _
    rw [die_setMsg]
    rfl

/-- parse_identifier neither reads nor keeps the starting diagnostic
buffer. -/
theorem parse_identifier_setMsg (m : List Char) (st : Ejs) :
    parse_identifier (setMsg m st) = mapMsg m (parse_identifier st) := by
  unfold parse_identifier
  simp only [setMsg_source_code, setMsg_cursor]
  split
  · show PRes.ok (skip_whitespaces_and_comments (setMsg m { st with
      cursor := identLoop (st.source_code.drop (st.cursor + 1)) (st.cursor + 1),
      tok := st.cursor,
      tok_len := identLoop (st.source_code.drop (st.cursor + 1)) (st.cursor + 1)
        - st.cursor })) = _
    rw [skip_setMsg]
    rfl
  · show PRes.err (die (setMsg m st) cond_ident) = _
    rw [die_setMsg]
    rfl

/-- Sequencing commutes with a replaced starting diagnostic buffer. -/
theorem pbind_mapMsg (m : List Char) (r : PRes) (G G0 : Ejs → PRes)
    (hg : ∀ s, G (setMsg m s) = mapMsg m (G0 s)) :
    pbind (mapMsg m r) G = mapMsg m (pbind r G0) := by
  cases r with
  | ok s => exact hg s
  | err s => rfl
  | out s => rfl

/-- Message independence: running any grammar function from a state whose
diagnostic buffer was replaced gives the same outcome, with the buffer
riding along on a normal return or fuel exhaustion and overwritten by the
failure on a syntax error.  In particular the parse never reads the
buffer, and a failure message never depends on what the buffer held. -/
theorem miAll :
    ∀ f : Nat, ∀ st : Ejs, ∀ m : List Char,
      parse_factor f (setMsg m st) = mapMsg m (parse_factor f st) ∧
      parse_function_call f (setMsg m st) = mapMsg m (parse_function_call f st) ∧
      fcall_loop f (setMsg m st) = mapMsg m (fcall_loop f st) ∧
      parse_term f (setMsg m st) = mapMsg m (parse_term f st) ∧
      term_loop f (setMsg m st) = mapMsg m (term_loop f st) ∧
      parse_expression f (setMsg m st) = mapMsg m (parse_expression f st) ∧
      expr_loop f (setMsg m st) = mapMsg m (expr_loop f st) ∧
      parse_declaration f (setMsg m st) = mapMsg m (parse_declaration f st) ∧
      parse_assignment f (setMsg m st) = mapMsg m (parse_assignment f st) ∧
      parse_statement f (setMsg m st) = mapMsg m (parse_statement f st) ∧
      exec_loop f (setMsg m st) = mapMsg m (exec_loop f st) := by
  intro f
  induction f with
  | zero =>
    intro st m
    exact ⟨rfl, rfl, rfl, rfl, rfl, rfl, rfl, rfl, rfl, rfl, rfl⟩
  | succ f ih =>
    intro st m
    refine ⟨?_, ?_, ?_, ?_, ?_, ?_, ?_, ?_, ?_, ?_, ?_⟩
    · -- parse_factor
      simp only [parse_factor_eq, setMsg_source_code, setMsg_cursor]
      split
      · rw [ejs_match_setMsg]
        refine pbind_mapMsg m _ _ _ fun s1 => ?_
        rw [(ih s1 m).2.2.2.2.2.1]
        exact pbind_mapMsg m _ _ _ fun s2 => ejs_match_setMsg m s2 ')'
      · split
        · rw [parse_identifier_setMsg]
          refine pbind_mapMsg m _ _ _ fun s1 => ?_
          simp only [setMsg_source_code, setMsg_cursor]
          split
          · exact (ih s1 m).2.1
          · rfl
        · exact parse_num_setMsg m st
    · -- parse_function_call
      simp only [parse_function_call_eq]
      rw [ejs_match_setMsg]
      exact pbind_mapMsg m _ _ _ fun s1 => (ih s1 m).2.2.1
    · -- fcall_loop
      simp only [fcall_loop_eq, setMsg_source_code, setMsg_cursor]
      split
      · rw [(ih st m).2.2.2.2.2.1]
        refine pbind_mapMsg m _ _ _ fun s1 => ?_
        simp only [setMsg_source_code, setMsg_cursor]
        split
        · rw [ejs_match_setMsg]
          exact pbind_mapMsg m _ _ _ fun s2 => (ih s2 m).2.2.1
        · exact (ih s1 m).2.2.1
      · exact ejs_match_setMsg m st ')'
    · -- parse_term
      simp only [parse_term_eq]
      rw [(ih st m).1]
      exact pbind_mapMsg m _ _ _ fun s1 => (ih s1 m).2.2.2.2.1
    · -- term_loop
      simp only [term_loop_eq, setMsg_source_code, setMsg_cursor]
      split
      · rw [ejs_match_setMsg]
        refine pbind_mapMsg m _ _ _ fun s1 => ?_
        rw [(ih s1 m).1]
        exact pbind_mapMsg m _ _ _ fun s2 => (ih s2 m).2.2.2.2.1
      · rfl
    · -- parse_expression
      simp only [parse_expression_eq]
      rw [(ih st m).2.2.2.1]
      exact pbind_mapMsg m _ _ _ fun s1 => (ih s1 m).2.2.2.2.2.2.1
    · -- expr_loop
      simp only [expr_loop_eq, setMsg_source_code, setMsg_cursor]
      split
      · rw [ejs_match_setMsg]
        refine pbind_mapMsg m _ _ _ fun s1 => ?_
        rw [(ih s1 m).2.2.2.1]
        exact pbind_mapMsg m _ _ _ fun s2 => (ih s2 m).2.2.2.2.2.2.1
      · rfl
    · -- parse_declaration
      simp only [parse_declaration_eq]
      rw [parse_identifier_setMsg]
      refine pbind_mapMsg m _ _ _ fun s1 => ?_
      rw [ejs_match_setMsg]
      refine pbind_mapMsg m _ _ _ fun s2 => ?_
      rw [(ih s2 m).2.2.2.2.2.1]
      refine pbind_mapMsg m _ _ _ fun s3 => ?_
      rw [test_and_skip_setMsg]
      rcases ht : test_and_skip s3 [','] 1 with ⟨b, s4⟩
      dsimp only
      split
      · exact (ih s4 m).2.2.2.2.2.2.2.1
      · rfl
    · -- parse_assignment
      simp only [parse_assignment_eq]
      rw [parse_identifier_setMsg]
      refine pbind_mapMsg m _ _ _ fun s1 => ?_
      rw [ejs_match_setMsg]
      exact pbind_mapMsg m _ _ _ fun s2 => (ih s2 m).2.2.2.2.2.1
    · -- parse_statement
      simp only [parse_statement_eq]
      rw [test_and_skip_setMsg]
      rcases ht : test_and_skip st ['v', 'a', 'r'] 3 with ⟨b, s1⟩
      dsimp only
      simp only [setMsg_source_code, setMsg_cursor]
      split
      · rw [(ih s1 m).2.2.2.2.2.2.2.1]
        exact pbind_mapMsg m _ _ _ fun s2 => ejs_match_setMsg m s2 ';'
      · split
        · rw [(ih s1 m).2.2.2.2.2.2.2.2.1]
          exact pbind_mapMsg m _ _ _ fun s2 => ejs_match_setMsg m s2 ';'
        · rw [(ih s1 m).2.2.2.2.2.1]
          exact pbind_mapMsg m _ _ _ fun s2 => ejs_match_setMsg m s2 ';'
    · -- exec_loop
      simp only [exec_loop_eq, setMsg_source_code, setMsg_cursor]
      split
      · rw [(ih st m).2.2.2.2.2.2.2.2.2.1]
        exact pbind_mapMsg m _ _ _ fun s1 => (ih s1 m).2.2.2.2.2.2.2.2.2.2
      · rfl

/-- nlCount distributes over concatenation. -/
theorem nlCount_append (a b : List Char) : nlCount (a ++ b) = nlCount a + nlCount b := by
  induction a with
  | nil => simp [nlCount]
  | cons c t ih =>
    show (if c = '\n' then 1 else 0) + nlCount (t ++ b)
      = ((if c = '\n' then 1 else 0) + nlCount t) + nlCount b
    rw [ih]
    omega

/-- The whitespace loop increments the line counter exactly once per
newline among the characters it walked over. -/
theorem wsLoop_line :
    ∀ (l : List Char) (i ln i1 ln1 : Nat), wsLoop l i ln = (i1, ln1) →
      ln1 = ln + nlCount (l.take (i1 - i)) := by
  intro l
  induction l with
  | nil =>
    intro i ln i1 ln1 h
    simp only [wsLoop, Prod.mk.injEq] at h
    obtain ⟨h1, h2⟩ := h
    subst h1
    subst h2
    simp [nlCount]
  | cons c t ih =>
    intro i ln i1 ln1 h
    simp only [wsLoop] at h
    split at h
    case isTrue hcnd =>
      have hmono := (wsLoop_spec _ _ _ _ _ h).1
      have hr := ih (i + 1) _ i1 ln1 h
      have htake : (c :: t).take (i1 - i) = c :: t.take (i1 - (i + 1)) := by
        have he : i1 - i = (i1 - (i + 1)) + 1 := by omega
        rw [he, List.take_succ_cons]
      rw [htake]
      simp only [nlCount]
      by_cases hcn : c = '\n'
      · rw [if_pos hcn] at hr
        rw [if_pos hcn]
        omega
      · rw [if_neg hcn] at hr
        rw [if_neg hcn]
        omega
    case isFalse hcnd =>
      simp only [Prod.mk.injEq] at h
      obtain ⟨h1, h2⟩ := h
      subst h1
      subst h2
      simp [nlCount]

/-- The comment loop walks over no newline at all. -/
theorem cmtLoop_nl :
    ∀ (l : List Char) (i : Nat), nlCount (l.take (cmtLoop l i - i)) = 0 := by
  intro l
  induction l with
  | nil => intro i; simp [cmtLoop, nlCount]
  | cons c t ih =>
    intro i
    simp only [cmtLoop]
    split
    case isTrue hcnd =>
      have hmono := (cmtLoop_spec t (i + 1)).1
      have htake : (c :: t).take (cmtLoop t (i + 1) - i)
          = c :: t.take (cmtLoop t (i + 1) - (i + 1)) := by
        have he : cmtLoop t (i + 1) - i = (cmtLoop t (i + 1) - (i + 1)) + 1 := by omega
        rw [he, List.take_succ_cons]
      rw [htake]
      simp only [nlCount]
      rw [if_neg hcnd.2]
      simp [ih (i + 1)]
    case isFalse hcnd => simp [nlCount]

/-- The skipper increments the line counter exactly once per newline it
consumes: the new line counter is the old one plus the number of newlines
in the consumed span. -/
theorem skip_line_count (st : Ejs) :
    (skip_whitespaces_and_comments st).line_no =
      st.line_no + nlCount ((st.source_code.drop st.cursor).take
        ((skip_whitespaces_and_comments st).cursor - st.cursor)) := by
  unfold skip_whitespaces_and_comments
  split
  case isTrue hsp =>
    rcases hw : wsLoop (st.source_code.drop st.cursor) st.cursor st.line_no with ⟨i1, ln1⟩
    have hspec := wsLoop_spec _ _ _ _ _ hw
    have hline := wsLoop_line _ _ _ _ _ hw
    dsimp only
    split
    case isTrue hc =>
      dsimp only
      have hnl1 : getd st.source_code i1 ≠ nul := by rw [hc.1]; decide
      have hnl2 : getd st.source_code (i1 + 1) ≠ nul := by rw [hc.2]; decide
      have hi1 := getd_ne_nul_lt hnl1
      have hi2 := getd_ne_nul_lt hnl2
      have hj : i1 + 2 ≤ cmtLoop (st.source_code.drop (i1 + 2)) (i1 + 2) :=
        (cmtLoop_spec (st.source_code.drop (i1 + 2)) (i1 + 2)).1
      have hadd : cmtLoop (st.source_code.drop (i1 + 2)) (i1 + 2) - st.cursor
          = (i1 - st.cursor) + (cmtLoop (st.source_code.drop (i1 + 2)) (i1 + 2) - i1) := by
        omega
      rw [hadd, List.take_add, nlCount_append, List.drop_drop]
      have hidx : st.cursor + (i1 - st.cursor) = i1 := by omega
      rw [hidx]
      have hseg : nlCount ((st.source_code.drop i1).take
          (cmtLoop (st.source_code.drop (i1 + 2)) (i1 + 2) - i1)) = 0 := by
        have h2 : cmtLoop (st.source_code.drop (i1 + 2)) (i1 + 2) - i1
            = ((cmtLoop (st.source_code.drop (i1 + 2)) (i1 + 2) - (i1 + 2)) + 1) + 1 := by
          omega
        rw [h2, drop_eq_getd_cons hi1, List.take_succ_cons]
        rw [drop_eq_getd_cons hi2, List.take_succ_cons]
        simp only [nlCount]
        rw [hc.1, hc.2]
        have hslash : ¬ (('/' : Char) = '\n') := by decide
        rw [if_neg hslash]
        have h12 : i1 + 1 + 1 = i1 + 2 := rfl
        rw [h12]
        simp [cmtLoop_nl]
      rw [hseg]
      omega
    case isFalse hc =>
      dsimp only
      exact hline
  case isFalse hsp =>
    simp [nlCount]

/-- A step invariant bounds the cursor of any outcome from below. -/
theorem Inv_cur {a : Ejs} {r : PRes} (h : Inv a r) : a.cursor ≤ (resState r).cursor := by
  cases r with
  | ok s => exact h.cur
  | err s => exact h.cur
  | out s => exact h.cur

/-- A step invariant bounds the line counter of any outcome from below. -/
theorem Inv_line {a : Ejs} {r : PRes} (h : Inv a r) : a.line_no ≤ (resState r).line_no := by
  cases r with
  | ok s => exact h.line
  | err s => exact h.line
  | out s => exact h.line

/-- A step invariant preserves the symbol table in any outcome. -/
theorem Inv_sym {a : Ejs} {r : PRes} (h : Inv a r) :
    (resState r).symbol_table = a.symbol_table := by
  cases r with
  | ok s => exact h.sym
  | err s => exact h.sym
  | out s => exact h.sym

/-- A step invariant preserves the source text in any outcome. -/
theorem Inv_src {a : Ejs} {r : PRes} (h : Inv a r) :
    (resState r).source_code = a.source_code := by
  cases r with
  | ok s => exact h.src
  | err s => exact h.src
  | out s => exact h.src

/-- A step invariant moves an in-range cursor at most one past the
input length, in any outcome. -/
theorem Inv_bound {a : Ejs} {r : PRes} (h : Inv a r)
    (hc : a.cursor ≤ a.source_code.length) :
    (resState r).cursor ≤ a.source_code.length + 1 := by
  cases r with
  | ok s => exact Nat.le_succ_of_le (h.bound hc)
  | err s => exact h.bound hc
  | out s => exact Nat.le_succ_of_le (h.bound hc)

/-- The skipper is the identity whenever the current character is not
whitespace; in particular a comment with no whitespace before it is not
skipped. -/
theorem skip_not_space (st : Ejs)
    (h : is_space (getd st.source_code st.cursor) = false) :
    skip_whitespaces_and_comments st = st := by
  unfold skip_whitespaces_and_comments
  rw [if_neg (by simp [h])]

/-- The skipper strictly advances the cursor whenever the current
character is whitespace: the whitespace loop consumes at least that one
byte, and the optional comment skip only moves further forward. -/
theorem skip_space_moves (st : Ejs)
    (h : is_space (getd st.source_code st.cursor) = true) :
    st.cursor < (skip_whitespaces_and_comments st).cursor := by
  have hcne : getd st.source_code st.cursor ≠ nul := is_space_ne_nul h
  have hlt : st.cursor < st.source_code.length := getd_ne_nul_lt hcne
  unfold skip_whitespaces_and_comments
  rw [if_pos h]
  rcases hw : wsLoop (st.source_code.drop st.cursor) st.cursor st.line_no with ⟨i1, ln1⟩
  rw [drop_eq_getd_cons hlt, wsLoop, if_pos ⟨hcne, h⟩] at hw
  have h1 := (wsLoop_spec _ _ _ _ _ hw).1
  dsimp only
  split
  · have h2 := (cmtLoop_spec (st.source_code.drop (i1 + 2)) (i1 + 2)).1
    dsimp only
    omega
  · dsimp only
    omega

/-- A failing ejs_exec run leaves the same return value and the very same
final state no matter what the diagnostic buffer held at the start: the
message is freshly written by the failure, never appended to. -/
theorem ejs_exec_err_setMsg {st : Ejs} {src : List Char} {s2 : Ejs} (m : List Char)
    (h : ejs_exec st src = (0, s2)) : ejs_exec (setMsg m st) src = (0, s2) := by
  unfold ejs_exec at h ⊢
  have hskip : skip_whitespaces_and_comments
        { setMsg m st with source_code := src, cursor := 0 }
      = setMsg m (skip_whitespaces_and_comments { st with source_code := src, cursor := 0 }) := by
    show skip_whitespaces_and_comments (setMsg m { st with source_code := src, cursor := 0 }) = _
    exact skip_setMsg m _
  rw [hskip, (miAll (ejsFuel src) _ m).2.2.2.2.2.2.2.2.2.2]
  rcases he : exec_loop (ejsFuel src)
      (skip_whitespaces_and_comments { st with source_code := src, cursor := 0 })
    with s | s | s
  · rw [he] at h
    dsimp only at h
    simp at h
  · rw [he] at h
    dsimp only at h ⊢
    exact h
  · rw [he] at h
    dsimp only at h
    simp at h

/-- A successful ejs_exec run never writes the diagnostic buffer. -/
theorem ejs_exec_ok_msg {st : Ejs} {src : List Char} {s2 : Ejs}
    (h : ejs_exec st src = (1, s2)) : s2.error_msg = st.error_msg := by
  unfold ejs_exec at h
  rcases he : exec_loop (ejsFuel src)
      (skip_whitespaces_and_comments { st with source_code := src, cursor := 0 })
    with s | s | s
  · rw [he] at h
    dsimp only at h
    have hs2 : s = s2 := congrArg Prod.snd h
    subst hs2
    have h1 := (skip_StOk { st with source_code := src, cursor := 0 }).msg
    have h2 : Inv (skip_whitespaces_and_comments { st with source_code := src, cursor := 0 })
        (exec_loop (ejsFuel src)
          (skip_whitespaces_and_comments { st with source_code := src, cursor := 0 })) :=
      (invAll (ejsFuel src) _).2.2.2.2.2.2.2.2.2.2
    rw [he] at h2
    rw [h2.msg, h1]
  · rw [he] at h
    dsimp only at h
    simp at h
  · rw [he] at h
    dsimp only at h
    simp at h

/-- A failing ejs_exec run leaves a non-empty diagnostic of at most 99
characters. -/
theorem ejs_exec_err_good {st : Ejs} {src : List Char} {s2 : Ejs}
    (h : ejs_exec st src = (0, s2)) :
    s2.error_msg ≠ [] ∧ s2.error_msg.length ≤ 99 := by
  unfold ejs_exec at h
  rcases he : exec_loop (ejsFuel src)
      (skip_whitespaces_and_comments { st with source_code := src, cursor := 0 })
    with s | s | s
  · rw [he] at h
    dsimp only at h
    simp at h
  · rw [he] at h
    dsimp only at h
    have hs2 : s = s2 := congrArg Prod.snd h
    subst hs2
    have h2 : Inv (skip_whitespaces_and_comments { st with source_code := src, cursor := 0 })
        (exec_loop (ejsFuel src)
          (skip_whitespaces_and_comments { st with source_code := src, cursor := 0 })) :=
      (invAll (ejsFuel src) _).2.2.2.2.2.2.2.2.2.2
    rw [he] at h2
    exact ⟨h2.msgNe, h2.msgLen⟩
  · rw [he] at h
    dsimp only at h
    simp at h

/-- Concrete acceptance scenarios of spec section 8 not already covered by
a claim theorem. -/
theorem spec_scenarios :
    (ejs_exec ejs_create ("var x = 10 + 20;".toList)).1 = 1 ∧
    (ejs_exec ejs_create ("x = 5 * (2 + 3);".toList)).1 = 1 ∧
    (ejs_exec ejs_create ("var x = ;".toList)).1 = 0 ∧
    (ejs_exec ejs_create ("var a = 1, b = a + 2;".toList)).1 = 1 :=
  ⟨rfl, rfl, rfl, rfl⟩

/-- C1 counterexample: the claim says every input derivable from the spec
grammar is accepted, in particular the underscore-leading assignment
"_a = 1;"; the code rejects it, because statement dispatch and factor
dispatch test is_alpha only and the underscore has class 1 (delimiter) in
the character table, so the input falls through to parse_num and dies. -/
theorem claim1_counterexample : (ejs_exec ejs_create ("_a = 1;".toList)).1 = 0 := rfl

/-- C1 (amended): the spec grammar overstates acceptance, and not only on
underscore identifiers.  The derivable expression statements "x;" and
"f(1);" lead with a letter, so statement dispatch forces the assignment
path and dies at the equals sign: both are rejected.  The assignment- and
declaration-shaped derivable inputs "a = 1;", "x = y + 2;" and
"var _a = 1;" are accepted; an underscore-leading identifier is accepted
only immediately after the var keyword, where parse_identifier, which
does admit the underscore, is reached directly. -/
theorem claim1_amended :
    (ejs_exec ejs_create ("x;".toList)).1 = 0 ∧
    (ejs_exec ejs_create ("f(1);".toList)).1 = 0 ∧
    (ejs_exec ejs_create ("a = 1;".toList)).1 = 1 ∧
    (ejs_exec ejs_create ("x = y + 2;".toList)).1 = 1 ∧
    (ejs_exec ejs_create ("var _a = 1;".toList)).1 = 1 :=
  ⟨rfl, rfl, rfl, rfl, rfl⟩

/-- C2: whenever ejs_exec returns 0, the instance error buffer holds a
non-empty string of at most 99 characters, and the whole failing run,
including the final buffer contents, is independent of what the buffer
held before the call: the most recent failure overwrote it. -/
theorem claim2_error_msg :
    ∀ (st : Ejs) (src : List Char) (s2 : Ejs), ejs_exec st src = (0, s2) →
      s2.error_msg ≠ [] ∧ s2.error_msg.length ≤ 99 ∧
      ∀ m : List Char, ejs_exec (setMsg m st) src = (0, s2) :=
  fun _ _ _ h =>
    ⟨(ejs_exec_err_good h).1, (ejs_exec_err_good h).2, fun m => ejs_exec_err_setMsg m h⟩

/-- C2 witness: the failing input "?" on a fresh instance. -/
theorem claim2_witness :
    (ejs_exec ejs_create ("?".toList)).2.error_msg ≠ [] ∧
    (ejs_exec ejs_create ("?".toList)).2.error_msg.length ≤ 99 ∧
    ∀ m : List Char,
      ejs_exec (setMsg m ejs_create) ("?".toList) = (0, (ejs_exec ejs_create ("?".toList)).2) :=
  claim2_error_msg ejs_create ("?".toList) ((ejs_exec ejs_create ("?".toList)).2) (by rfl)

/-- C3 counterexample: the claim says a comment at the very start of the
source is transparent, so "// just a comment" followed by a newline would
be accepted; the code rejects it, because the skipper only activates when
the current byte is whitespace, and a line starting with a slash never
reaches the comment check. -/
theorem claim3_counterexample :
    (ejs_exec ejs_create ("// just a comment\n".toList)).1 = 0 := rfl

/-- C3 (amended): comments are not transparent to acceptance.  The
skipper is the identity whenever the current character is not whitespace,
so a comment with no whitespace before it is never skipped; a comment
preceded by whitespace and running to the end of input is skipped, so
" // just a comment" (with a leading blank and no trailing newline) is
accepted while "// just a comment" with a newline is not. -/
theorem claim3_amended :
    (∀ st : Ejs, is_space (getd st.source_code st.cursor) = false →
      skip_whitespaces_and_comments st = st) ∧
    (ejs_exec ejs_create (" // just a comment".toList)).1 = 1 :=
  ⟨skip_not_space, rfl⟩

/-- C3 witness: a source starting with a slash is left untouched by the
skipper. -/
theorem claim3_witness :
    skip_whitespaces_and_comments { ejs_create with source_code := "// x".toList }
      = { ejs_create with source_code := "// x".toList } :=
  claim3_amended.1 { ejs_create with source_code := "// x".toList } (by decide)

/-- C4 counterexample: the claim says the line counter starts at 1 on a
fresh instance and is reset to 1 at the start of every ejs_exec call; in
the code calloc zero-initializes it to 0 and ejs_exec never writes it, so
after running ejs_exec on the empty input the counter is still 0. -/
theorem claim4_counterexample :
    ejs_create.line_no = 0 ∧ (ejs_exec ejs_create ([] : List Char)).2.line_no = 0 :=
  ⟨rfl, rfl⟩

/-- C4 (amended): the line counter starts at 0 on a fresh instance and is
never reset by ejs_exec; within and across parses it is non-decreasing,
and the whitespace skipper, the only place that writes it, increments it
exactly once per newline it consumes. -/
theorem claim4_amended :
    (∀ (st : Ejs) (src : List Char), st.line_no ≤ (ejs_exec st src).2.line_no) ∧
    (∀ st : Ejs, (skip_whitespaces_and_comments st).line_no =
      st.line_no + nlCount ((st.source_code.drop st.cursor).take
        ((skip_whitespaces_and_comments st).cursor - st.cursor))) ∧
    (ejs_exec ejs_create ("\n\n".toList)).2.line_no = 2 := by
  refine ⟨?_, skip_line_count, rfl⟩
  intro st src
  unfold ejs_exec
  have h1 : st.line_no ≤
      (skip_whitespaces_and_comments { st with source_code := src, cursor := 0 }).line_no :=
    (skip_StOk { st with source_code := src, cursor := 0 }).line
  have h2 := Inv_line ((invAll (ejsFuel src)
    (skip_whitespaces_and_comments { st with source_code := src, cursor := 0 })).2.2.2.2.2.2.2.2.2.2)
  rcases he : exec_loop (ejsFuel src)
      (skip_whitespaces_and_comments { st with source_code := src, cursor := 0 })
    with s | s | s <;>
  · rw [he] at h2
    dsimp only [resState] at h2
    dsimp only
    omega

/-- C5 counterexample: the claim says the cursor never exceeds the input
length, even on the error path of a failed match; on the one-byte input
"1" the statement-final match of the semicolon runs the blind
post-increment at the terminating NUL and dies with the cursor at 2, one
past the length. -/
theorem claim5_counterexample :
    (ejs_exec ejs_create ("1".toList)).2.cursor = 2 ∧ ("1".toList).length = 1 :=
  ⟨rfl, rfl⟩

/-- C5 (amended): within a parse the cursor is monotonically
non-decreasing at every step, and it never moves more than one byte past
the terminating NUL; it stays within the input on every success, and
exceeds the length, by exactly the one blind post-increment of a failed
match, only on the error path. -/
theorem claim5_amended :
    (∀ (f : Nat) (st : Ejs), st.cursor ≤ (resState (parse_statement f st)).cursor) ∧
    (∀ (f : Nat) (st : Ejs), st.cursor ≤ st.source_code.length →
      (resState (parse_statement f st)).cursor ≤ st.source_code.length + 1) ∧
    (∀ (st : Ejs) (src : List Char), (ejs_exec st src).2.cursor ≤ src.length + 1) ∧
    (∀ (st : Ejs) (src : List Char) (s : Ejs),
      ejs_exec st src = (1, s) → s.cursor ≤ src.length) := by
  refine ⟨fun f st => Inv_cur (invAll f st).2.2.2.2.2.2.2.2.2.1,
    fun f st hc => Inv_bound (invAll f st).2.2.2.2.2.2.2.2.2.1 hc, ?_, ?_⟩
  · intro st src
    unfold ejs_exec
    have hb : (skip_whitespaces_and_comments
        { st with source_code := src, cursor := 0 }).cursor ≤ src.length :=
      (skip_StOk { st with source_code := src, cursor := 0 }).bound (Nat.zero_le _)
    have hsrc : (skip_whitespaces_and_comments
        { st with source_code := src, cursor := 0 }).source_code = src :=
      (skip_StOk { st with source_code := src, cursor := 0 }).src
    have h2 := Inv_bound ((invAll (ejsFuel src)
      (skip_whitespaces_and_comments
        { st with source_code := src, cursor := 0 })).2.2.2.2.2.2.2.2.2.2)
      (by rw [hsrc]; exact hb)
    rw [hsrc] at h2
    rcases he : exec_loop (ejsFuel src)
        (skip_whitespaces_and_comments { st with source_code := src, cursor := 0 })
      with s | s | s <;>
    · rw [he] at h2
      dsimp only [resState] at h2
      dsimp only
      omega
  · intro st src s h
    unfold ejs_exec at h
    have hb : (skip_whitespaces_and_comments
        { st with source_code := src, cursor := 0 }).cursor ≤ src.length :=
      (skip_StOk { st with source_code := src, cursor := 0 }).bound (Nat.zero_le _)
    have hsrc : (skip_whitespaces_and_comments
        { st with source_code := src, cursor := 0 }).source_code = src :=
      (skip_StOk { st with source_code := src, cursor := 0 }).src
    rcases he : exec_loop (ejsFuel src)
        (skip_whitespaces_and_comments { st with source_code := src, cursor := 0 })
      with s1 | s1 | s1
    · rw [he] at h
      dsimp only at h
      have hs : s1 = s := congrArg Prod.snd h
      subst hs
      have h2 : Inv (skip_whitespaces_and_comments { st with source_code := src, cursor := 0 })
          (exec_loop (ejsFuel src) (skip_whitespaces_and_comments
            { st with source_code := src, cursor := 0 })) :=
        (invAll (ejsFuel src) _).2.2.2.2.2.2.2.2.2.2
      rw [he] at h2
      have h3 := h2.bound (by rw [hsrc]; exact hb)
      rw [hsrc] at h3
      exact h3
    · rw [he] at h
      dsimp only at h
      simp at h
    · rw [he] at h
      dsimp only at h
      simp at h

/-- C5 witness: the bound conjuncts instantiated on concrete runs. -/
theorem claim5_witness :
    (resState (parse_statement 3 ejs_create)).cursor ≤ ejs_create.source_code.length + 1 ∧
    (ejs_exec ejs_create ("a = 1;".toList)).2.cursor ≤ ("a = 1;".toList).length :=
  ⟨claim5_amended.2.1 3 ejs_create (by decide),
   claim5_amended.2.2.2 ejs_create ("a = 1;".toList)
     ((ejs_exec ejs_create ("a = 1;".toList)).2) (by rfl)⟩

/-- C6: a bare function call is not a valid top-level statement, because
a leading letter forces the assignment path, which requires an equals
sign; the same call is accepted inside an expression on the right of an
assignment. -/
theorem claim6_bare_call :
    (ejs_exec ejs_create ("foo(1, 2);".toList)).1 = 0 ∧
    (ejs_exec ejs_create ("x = foo(1, 2);".toList)).1 = 1 :=
  ⟨rfl, rfl⟩

/-- C7 counterexample: the claim says the skipper is idempotent at every
scan state; on the source " //" followed by a newline the first
invocation stops on the newline that ends the comment, and the second
invocation consumes that newline, moving the cursor further. -/
theorem claim7_counterexample :
    (skip_whitespaces_and_comments (skip_whitespaces_and_comments
      { ejs_create with source_code := " //\n".toList })).cursor ≠
    (skip_whitespaces_and_comments
      { ejs_create with source_code := " //\n".toList }).cursor := by
  decide

/-- C7 (amended): the skipper is idempotent except when a skipped comment
is terminated by a newline, on which the first invocation stops: the
second invocation is a no-op exactly when the character under the cursor
after the first invocation is not whitespace.  If it is not whitespace
the second call is the identity, and if it is whitespace the second call
strictly advances the cursor, so the states differ. -/
theorem claim7_amended :
    ∀ st : Ejs,
      skip_whitespaces_and_comments (skip_whitespaces_and_comments st) =
        skip_whitespaces_and_comments st ↔
      is_space (getd (skip_whitespaces_and_comments st).source_code
        (skip_whitespaces_and_comments st).cursor) = false := by
  intro st
  constructor
  · intro he
    cases hb : is_space (getd (skip_whitespaces_and_comments st).source_code
        (skip_whitespaces_and_comments st).cursor) with
    | false => rfl
    | true =>
      exfalso
      have hlt := skip_space_moves (skip_whitespaces_and_comments st) hb
      rw [he] at hlt
      exact Nat.lt_irrefl _ hlt
  · intro hb
    exact skip_not_space _ hb

/-- C7 witness: after skipping nothing on a letter, a second invocation
is a no-op, by the right-to-left direction of the biconditional. -/
theorem claim7_witness :
    skip_whitespaces_and_comments (skip_whitespaces_and_comments
      { ejs_create with source_code := "x = 1;".toList }) =
    skip_whitespaces_and_comments { ejs_create with source_code := "x = 1;".toList } :=
  (claim7_amended { ejs_create with source_code := "x = 1;".toList }).mpr (by decide)

/-- C8: ejs_exec terminates on every input with either success or the
first syntax error: the fuel supplied by ejs_exec is proved sufficient,
so the fuel-exhaustion outcome (return value 2) never occurs and every
run returns 1 or 0. -/
theorem claim8_termination :
    ∀ (st : Ejs) (src : List Char),
      (ejs_exec st src).1 = 1 ∨ (ejs_exec st src).1 = 0 := by
  intro st src
  unfold ejs_exec
  rcases he : exec_loop (ejsFuel src)
      (skip_whitespaces_and_comments { st with source_code := src, cursor := 0 })
    with s | s | s
  · exact Or.inl rfl
  · exact Or.inr rfl
  · exfalso
    have hb : (skip_whitespaces_and_comments
        { st with source_code := src, cursor := 0 }).cursor ≤
        (skip_whitespaces_and_comments
          { st with source_code := src, cursor := 0 }).source_code.length := by
      have hsrc : (skip_whitespaces_and_comments
          { st with source_code := src, cursor := 0 }).source_code = src :=
        (skip_StOk { st with source_code := src, cursor := 0 }).src
      rw [hsrc]
      exact (skip_StOk { st with source_code := src, cursor := 0 }).bound (Nat.zero_le _)
    have hsrc : (skip_whitespaces_and_comments
        { st with source_code := src, cursor := 0 }).source_code = src :=
      (skip_StOk { st with source_code := src, cursor := 0 }).src
    have hfuel : 5 + 6 * rem (skip_whitespaces_and_comments
        { st with source_code := src, cursor := 0 }) ≤ ejsFuel src := by
      have e : rem (skip_whitespaces_and_comments
          { st with source_code := src, cursor := 0 })
          = src.length + 1 - (skip_whitespaces_and_comments
            { st with source_code := src, cursor := 0 }).cursor := by
        simp [rem, hsrc]
      rw [e]
      simp only [ejsFuel]
      omega
    exact (suffAll (ejsFuel src) _ hb).2.2.2.2.2.2.2.2.2.2 hfuel s he

/-- C9: ejs_exec never touches the symbol table: whatever the outcome,
the field after the call equals the field before it. -/
theorem claim9_symbol_table :
    ∀ (st : Ejs) (src : List Char),
      (ejs_exec st src).2.symbol_table = st.symbol_table := by
  intro st src
  unfold ejs_exec
  have h1 : (skip_whitespaces_and_comments
      { st with source_code := src, cursor := 0 }).symbol_table = st.symbol_table :=
    (skip_StOk { st with source_code := src, cursor := 0 }).sym
  have h2 := Inv_sym ((invAll (ejsFuel src)
    (skip_whitespaces_and_comments { st with source_code := src, cursor := 0 })).2.2.2.2.2.2.2.2.2.2)
  rcases he : exec_loop (ejsFuel src)
      (skip_whitespaces_and_comments { st with source_code := src, cursor := 0 })
    with s | s | s <;>
  · rw [he] at h2
    dsimp only [resState] at h2
    dsimp only
    rw [h2, h1]

/-- C10: a successful ejs_exec call never writes the error buffer, so
after a failed call followed by a successful call on the same instance,
the diagnostic text from the earlier failure is still readable
unchanged. -/
theorem claim10_success_preserves_msg :
    (∀ (st : Ejs) (src : List Char) (s : Ejs),
      ejs_exec st src = (1, s) → s.error_msg = st.error_msg) ∧
    (∀ (st : Ejs) (a b : List Char) (s1 s2 : Ejs),
      ejs_exec st a = (0, s1) → ejs_exec s1 b = (1, s2) → s2.error_msg = s1.error_msg) :=
  ⟨fun _ _ _ h => ejs_exec_ok_msg h, fun _ _ _ _ _ _ h2 => ejs_exec_ok_msg h2⟩

/-- C10 witness: fail on "?", then succeed on the empty input; the
diagnostic of the failure survives the success. -/
theorem claim10_witness :
    (ejs_exec ejs_create ([] : List Char)).2.error_msg = ejs_create.error_msg ∧
    (ejs_exec (ejs_exec ejs_create ("?".toList)).2 ([] : List Char)).2.error_msg
      = (ejs_exec ejs_create ("?".toList)).2.error_msg :=
  ⟨claim10_success_preserves_msg.1 ejs_create ([] : List Char)
     ((ejs_exec ejs_create ([] : List Char)).2) (by rfl),
   claim10_success_preserves_msg.2 ejs_create ("?".toList) ([] : List Char)
     ((ejs_exec ejs_create ("?".toList)).2)
     ((ejs_exec (ejs_exec ejs_create ("?".toList)).2 ([] : List Char)).2)
     (by rfl) (by rfl)⟩

end Ejsc
